import Mathlib

/-!
# Verification of the wine-deal-scanner extraction and deduplication core

This file gives a shallow embedding, in Lean 4, of the pure core of the
`wine-deal-scanner` repository (`app/extract.py`, `app/models.py`,
`app/config.py`, `app/main.py`, `app/watcher.py`, `app/watcher_minimal.py`,
`app/enrichment.py`) and proves/refutes the specification claims about it.

Modelling conventions:

* Python `float` values are modelled as exact rationals (`ℚ`).  Every number
  the claims mention has at most two decimal digits, where the Python double
  rounding is injective and order-preserving, so equalities and comparisons
  (`= 69.99`, `< 5.00`, `> 0`) transfer faithfully.
* Python regular expressions are modelled by a small deep-embedded regex
  language (`RE`) with a continuation-passing backtracking matcher that
  mirrors Python `re` semantics: leftmost search position wins, alternatives
  are tried left to right, greedy quantifiers prefer longer matches, lazy
  ones shorter, and `\b` tests a word/non-word transition.  Each pattern of
  the source is transliterated constructor by constructor.
* Unicode-dependent pieces (`str.lower`, NFD decomposition, combining-mark
  classes) are modelled by explicit character tables covering the character
  repertoire exercised by this code base (ASCII plus the accented Latin
  letters and mojibake characters appearing in the source and its data).
* Fallible Python code returns `Option`; an exception escaping a function is
  an `Except` error.
-/

/-- Characters matched by Python's `\s` (the ASCII fragment, which is all this
code base uses). -/
def isPySpace (c : Char) : Bool :=
  c = ' ' || c = '\t' || c = '\n' || c = '\x0d' || c = '\x0b' || c = '\x0c'

/-- ASCII decimal digit, Python's `[0-9]` / `\d` on this code's data. -/
def isDig (c : Char) : Bool :=
  '0' ≤ c && c ≤ '9'

/-- Accented Latin letters appearing in this repository's data (titles and the
mojibake generic-title marker).  They are word characters for Python's `\w`. -/
def isAccLetter (c : Char) : Bool :=
  c = 'â' || c = 'é' || c = 'è' || c = 'ê' || c = 'ô' || c = 'û' || c = 'ü' ||
  c = 'ç' || c = 'à' || c = 'Â' || c = 'É' || c = 'È' || c = 'Ç' || c = 'À'

/-- Python's `\w` (word character) on the repertoire used here: ASCII letters,
digits, underscore, and the accented letters of the table. -/
def isPyWord (c : Char) : Bool :=
  ('a' ≤ c && c ≤ 'z') || ('A' ≤ c && c ≤ 'Z') || isDig c || c = '_' ||
  isAccLetter c

/-- The three currency symbols the source's price regexes recognise. -/
def isCurrency (c : Char) : Bool :=
  c = '$' || c = '€' || c = '£'

/-- ASCII lowercasing plus the accented uppercase letters of the table:
models Python `str.lower()` on the repertoire used here. -/
def pyLowerChar (c : Char) : Char :=
  if 'A' ≤ c && c ≤ 'Z' then Char.ofNat (c.toNat + 32)
  else if c = 'Â' then 'â'
  else if c = 'É' then 'é'
  else if c = 'È' then 'è'
  else if c = 'Ç' then 'ç'
  else if c = 'À' then 'à'
  else c

/-! ## A deep-embedded fragment of Python regular expressions

All quantifiers in the source's patterns apply to single-character classes,
and `(?:...)?` optional groups; that is exactly the fragment `RE` covers.
Case-insensitive matching lowers both sides through `pyLowerChar`; the
patterns compiled without `re.IGNORECASE` contain no cased literals, so using
case-insensitive literals throughout is faithful. -/

/-- Regex abstract syntax.  `starCls`/`repCls` quantify a character class
(`greedy = true` prefers longer matches).  `grp` is capture group 1. -/
inductive RE where
  | eps : RE
  | cls (p : Char → Bool) : RE
  | lit (s : List Char) : RE
  | seq (a b : RE) : RE
  | alt (a b : RE) : RE
  | starCls (p : Char → Bool) (greedy : Bool) : RE
  | repCls (p : Char → Bool) (lo hi : Nat) (greedy : Bool) : RE
  | opt (a : RE) (greedy : Bool) : RE
  | wb : RE
  | grp (a : RE) : RE

/-- Success value of a match attempt: the contents of capture group 1, if the
group participated in the match. -/
abbrev MRes := Option (List Char)

/-- Continuations receive the character preceding the remaining input (for
`\b`), the remaining input, and the capture accumulated so far. -/
abbrev MK := Option Char → List Char → MRes → Option MRes

/-- Word-character test on an optional character; the virtual characters
before and after the string are non-word. -/
def wordAt : Option Char → Bool
  | none => false
  | some c => isPyWord c

/-- Case-insensitive literal matching (Python `re.IGNORECASE`). -/
def litK (s : List Char) (prev : Option Char) (cs : List Char) (cap : MRes)
    (k : MK) : Option MRes :=
  match s, cs with
  | [], _ => k prev cs cap
  | _ :: _, [] => none
  | a :: s0, c :: cs0 =>
      if pyLowerChar a = pyLowerChar c then litK s0 (some c) cs0 cap k
      else none

/-- The character that precedes the remaining input after consuming `run`. -/
def prevAfter (prev : Option Char) (run : List Char) : Option Char :=
  match run.getLast? with
  | some c => some c
  | none => prev

/-- Candidate consumption lengths for a class quantifier whose maximal run has
length `run`, bounded by `lo`/`hi`, ordered by preference. -/
def repLens (run lo hi : Nat) (greedy : Bool) : List Nat :=
  let top := min hi run
  if lo > top then []
  else
    let asc := (List.range (top + 1 - lo)).map (fun i => lo + i)
    if greedy then asc.reverse else asc

/-- The backtracking matcher.  `matchK r prev cs cap k` tries to match `r` at
the start of `cs` and runs `k` on every admissible way of doing so, in
Python's preference order, returning the first success. -/
def matchK : RE → Option Char → List Char → MRes → MK → Option MRes
  | .eps, prev, cs, cap, k => k prev cs cap
  | .cls p, _, cs, cap, k =>
      match cs with
      | [] => none
      | c :: cs0 => if p c then k (some c) cs0 cap else none
  | .lit s, prev, cs, cap, k => litK s prev cs cap k
  | .seq a b, prev, cs, cap, k =>
      matchK a prev cs cap (fun p0 cs0 cap0 => matchK b p0 cs0 cap0 k)
  | .alt a b, prev, cs, cap, k =>
      match matchK a prev cs cap k with
      | some r => some r
      | none => matchK b prev cs cap k
  | .starCls p g, prev, cs, cap, k =>
      let run := (cs.takeWhile p).length
      (repLens run 0 run g).findSome?
        (fun n => k (prevAfter prev (cs.take n)) (cs.drop n) cap)
  | .repCls p lo hi g, prev, cs, cap, k =>
      let run := (cs.takeWhile p).length
      (repLens run lo hi g).findSome?
        (fun n => k (prevAfter prev (cs.take n)) (cs.drop n) cap)
  | .opt a g, prev, cs, cap, k =>
      if g then
        match matchK a prev cs cap k with
        | some r => some r
        | none => k prev cs cap
      else
        match k prev cs cap with
        | some r => some r
        | none => matchK a prev cs cap k
  | .wb, prev, cs, cap, k =>
      if wordAt prev ≠ wordAt cs.head? then k prev cs cap else none
  | .grp a, prev, cs, cap, k =>
      matchK a prev cs cap
        (fun p0 cs0 _ => k p0 cs0 (some (cs.take (cs.length - cs0.length))))

/-- The always-succeeding continuation: accept the match as found. -/
def topK : MK := fun _ _ cap => some cap

/-- `re.search` over an explicit character list: try each start position from
the left, remembering the previous character for `\b`. -/
def searchFrom (r : RE) : Option Char → List Char → Option MRes
  | prev, [] =>
      match matchK r prev [] none topK with
      | some res => some res
      | none => none
  | prev, c :: cs0 =>
      match matchK r prev (c :: cs0) none topK with
      | some res => some res
      | none => searchFrom r (some c) cs0

/-- Unfolding equation for `searchFrom`: try a match at the current position,
else advance one character. -/
theorem searchFrom_eq (r : RE) (prev : Option Char) (cs : List Char) :
    searchFrom r prev cs =
      match matchK r prev cs none topK with
      | some res => some res
      | none =>
          match cs with
          | [] => none
          | c :: cs0 => searchFrom r (some c) cs0 := by
  cases cs with
  | nil => simp only [searchFrom]
  | cons c cs0 => simp only [searchFrom]

/-- `re.search(r, s)`: `some g` means a match was found with capture group 1
equal to `g` (when the pattern has a group, `g` is `some` of its text). -/
def reSearch (r : RE) (s : List Char) : Option MRes :=
  searchFrom r none s

/-- Convenience: one-character literal. -/
def litc (c : Char) : RE := .lit [c]

/-- `p+` (greedy): one mandatory character then a greedy star. -/
def plusCls (p : Char → Bool) : RE := .seq (.cls p) (.starCls p true)

/-! ## Decimal parsing and formatting over exact rationals -/

/-- Numeric value of a digit character. -/
def digVal (c : Char) : Nat := c.toNat - '0'.toNat

/-- Value of a digit list read as a natural number. -/
def digitsVal (l : List Char) : Nat :=
  l.foldl (fun acc c => 10 * acc + digVal c) 0

/-- Strict `float(s)` for the unsigned strings this code feeds to `float`:
digits with at most one dot and at least one digit, read as the exact
rational `ip.fr` (built with `mkRat` to stay kernel-computable).  Everything
else is a `ValueError`, i.e. `none`. -/
def pyFloat (l : List Char) : Option ℚ :=
  let intPart := l.takeWhile isDig
  let rest := l.dropWhile isDig
  match rest with
  | [] => if intPart = [] then none else some (mkRat (digitsVal intPart) 1)
  | '.' :: fr =>
      if fr.all isDig && (intPart ≠ [] || fr ≠ []) then
        some (mkRat (digitsVal intPart * 10 ^ fr.length + digitsVal fr)
          (10 ^ fr.length))
      else none
  | _ => none

/-- Round-half-even of `|q| * m` (the Python/IEEE rounding used by
`f"{x:.2f}"` and `round()`), computed on numerator and denominator. -/
def rndMulNat (q : ℚ) (m : ℕ) : ℕ :=
  let t := q.num.natAbs * m
  let d := q.den
  let quo := t / d
  let rem := t % d
  if 2 * rem < d then quo
  else if d < 2 * rem then quo + 1
  else if quo % 2 = 0 then quo else quo + 1

/-- Exactly two decimal digits for the fractional part. -/
def pad2 (k : ℕ) : List Char :=
  [Nat.digitChar (k / 10 % 10), Nat.digitChar (k % 10)]

/-- Python `f"{p:.2f}"`: sign, integer part, dot, exactly two fractional
digits, rounding half to even. -/
def fmt2 (p : ℚ) : List Char :=
  let n := rndMulNat p 100
  (if p < 0 then ['-'] else []) ++
    (Nat.toDigits 10 (n / 100)) ++ '.' :: pad2 (n % 100)

/-! ## Python values (`Any`) as a tagged union

`JValue` covers the Python values flowing through the extraction code: JSON
scalars and containers, with `int` and `float` kept apart because `str()`
renders them differently. -/

inductive JValue where
  | null : JValue
  | bool (b : Bool) : JValue
  | int (z : ℤ) : JValue
  | float (q : ℚ) : JValue
  | str (s : List Char) : JValue
  | arr (l : List JValue) : JValue
  | obj (l : List (List Char × JValue)) : JValue

/-- Python truthiness of a `JValue`. -/
def truthyJ : JValue → Bool
  | .null => false
  | .bool b => b
  | .int z => z ≠ 0
  | .float q => q ≠ 0
  | .str s => s ≠ []
  | .arr l => !l.isEmpty
  | .obj l => !l.isEmpty

/-- `a or b` on Python values: `a` if truthy, else `b`. -/
def pyOr (a b : JValue) : JValue :=
  if truthyJ a then a else b

/-- `dict.get(k)` with default `None`. -/
def dictGet (l : List (List Char × JValue)) (k : List Char) : JValue :=
  match l.find? (fun e => e.1 = k) with
  | some e => e.2
  | none => .null

/-- `k in dict`. -/
def dictHas (l : List (List Char × JValue)) (k : List Char) : Bool :=
  (l.find? (fun e => e.1 = k)).isSome

/-- Render a rational with terminating decimal expansion the way Python
renders the corresponding float (`29.99` ↦ `"29.99"`, integral values get a
trailing `".0"`).  Only ever evaluated on such rationals. -/
def floatRepr (q : ℚ) : List Char :=
  let sgn : List Char := if q < 0 then ['-'] else []
  let n := |q.num|.toNat
  let d := q.den
  let k := (List.range 20).findSome?
    (fun i => if d ∣ 10 ^ i then some i else none)
  match k with
  | none => sgn ++ Nat.toDigits 10 n ++ ['…']
  | some k0 =>
      let scaled := n * (10 ^ k0 / d)
      let ip := Nat.toDigits 10 (scaled / 10 ^ k0)
      let fr := scaled % 10 ^ k0
      if k0 = 0 then sgn ++ ip ++ ['.', '0']
      else
        let frDigits := (Nat.toDigits 10 (10 ^ k0 + fr)).drop 1
        let trimmed := (frDigits.reverse.dropWhile (· = '0')).reverse
        sgn ++ ip ++ '.' :: (if trimmed = [] then ['0'] else trimmed)

/-- The single-quote character (used by Python `repr` of strings). -/
def sqc : Char := Char.ofNat 39

mutual

/-- Python `repr` of a value (the strings here contain no quotes or escapes,
so string repr is just single-quoting). -/
def pyRepr : JValue → List Char
  | .null => ['N', 'o', 'n', 'e']
  | .bool b => if b then ['T', 'r', 'u', 'e'] else ['F', 'a', 'l', 's', 'e']
  | .int z => (if z < 0 then ['-'] else []) ++ Nat.toDigits 10 z.natAbs
  | .float q => floatRepr q
  | .str s => sqc :: s ++ [sqc]
  | .arr l => '[' :: pyReprList l ++ [']']
  | .obj l => '\x7b' :: pyReprObj l ++ ['\x7d']

/-- Comma-separated reprs of list elements. -/
def pyReprList : List JValue → List Char
  | [] => []
  | [v] => pyRepr v
  | v :: rest => pyRepr v ++ ',' :: ' ' :: pyReprList rest

/-- Comma-separated `'key': value` reprs of dict entries. -/
def pyReprObj : List (List Char × JValue) → List Char
  | [] => []
  | [(k, v)] => sqc :: k ++ sqc :: ':' :: ' ' :: pyRepr v
  | (k, v) :: rest =>
      sqc :: k ++ sqc :: ':' :: ' ' :: pyRepr v ++ ',' :: ' ' :: pyReprObj rest

end

/-- Python `str()`: identity on strings, `repr` on everything else (for the
values appearing here). -/
def pyStr : JValue → List Char
  | .str s => s
  | v => pyRepr v

/-! ## `app/extract.py`: `_to_float` -/

/-- The pattern `([0-9]+(?:\.[0-9]+)?)` of `_to_float`. -/
def toFloatRE : RE :=
  .grp (.seq (plusCls isDig) (.opt (.seq (litc '.') (plusCls isDig)) true))

/-- `val.replace(",", "")`. -/
def stripCommas (l : List Char) : List Char :=
  l.filter (fun c => c ≠ ',')

/-- `_to_float` (`app/extract.py`): `None` stays `None`, ints/floats (and
bools, which are ints in Python) coerce, strings are scanned for the first
unsigned decimal number after comma removal, everything else is `None`. -/
def to_float : JValue → Option ℚ
  | .null => none
  | .bool b => some (if b then 1 else 0)
  | .int z => some z
  | .float q => some q
  | .str s =>
      match reSearch toFloatRE (stripCommas s) with
      | some (some g) => pyFloat g
      | _ => none
  | .arr _ => none
  | .obj _ => none

/-! ## `app/extract.py`: `pick_lastbottle_price` -/

/-- Literal from a string literal. -/
def lits (s : String) : RE := .lit s.data

/-- `[0-9]+(?:\.[0-9]+)?`. -/
def numRE : RE :=
  .seq (plusCls isDig) (.opt (.seq (litc '.') (plusCls isDig)) true)

/-- `last\s*bottle` — the offer-price keyword. -/
def kwRE : RE :=
  .seq (lits "last") (.seq (.starCls isPySpace true) (lits "bottle"))

/-- `last\s*bottle[^$€£]*([$€£]\s*[0-9]+(?:\.[0-9]+)?)` (`re.IGNORECASE`). -/
def pickRE : RE :=
  .seq kwRE
    (.seq (.starCls (fun c => !isCurrency c) true)
      (.grp (.seq (.cls isCurrency) (.seq (.starCls isPySpace true) numRE))))

/-- The text/HTML fallback branch of `pick_lastbottle_price`:
`_to_float(m.group(1))` when the pattern hits, else `None`. -/
def pickTextSearch (s : List Char) : Option ℚ :=
  match reSearch pickRE s with
  | some (some g) => to_float (.str g)
  | _ => none

/-- The `last_bottle`-style key names probed on dicts. -/
def lbKeys : List (List Char) :=
  [("last_bottle" : String).data, ("lastBottle" : String).data,
   ("lastBottlePrice" : String).data, ("last_bottle_price" : String).data,
   ("lb" : String).data]

/-- The nested containers probed first. -/
def nestKeys : List (List Char) :=
  [("prices" : String).data, ("pricing" : String).data,
   ("priceInfo" : String).data]

/-- Probe a dict for the `last_bottle` keys, in order; a present key whose
value does not coerce to a number is skipped. -/
def scanLb (sub : List (List Char × JValue)) : List (List Char) → Option ℚ
  | [] => none
  | k :: rest =>
      if dictHas sub k then
        match to_float (dictGet sub k) with
        | some v => some v
        | none => scanLb sub rest
      else scanLb sub rest

/-- Probe the nested price containers of a dict. -/
def scanNested (o : List (List Char × JValue)) : List (List Char) → Option ℚ
  | [] => none
  | k :: rest =>
      match dictGet o k with
      | .obj sub =>
          match scanLb sub lbKeys with
          | some v => some v
          | none => scanNested o rest
      | _ => scanNested o rest

/-- `pick_lastbottle_price` (`app/extract.py`): the offer price only — nested
dict keys, then flat keys, then the `last bottle` text pattern over `str(obj)`;
never a retail/best-web amount. -/
def pick_lastbottle_price (v : JValue) : Option ℚ :=
  match v with
  | .obj o =>
      match scanNested o nestKeys with
      | some r => some r
      | none =>
          match scanLb o lbKeys with
          | some r => some r
          | none => pickTextSearch (pyStr v)
  | _ => pickTextSearch (pyStr v)

/-! ## `app/extract.py`: `_extract_last_bottle_price` -/

/-- `[\d,]`. -/
def isDigComma (c : Char) : Bool := isDig c || c = ','

/-- `[\d,]+\.?\d*`. -/
def moneyNumRE : RE :=
  .seq (plusCls isDigComma) (.seq (.opt (litc '.') true) (.starCls isDig true))

/-- `[$€£]\s*[\d,]+\.?\d*`. -/
def curMoneyRE : RE :=
  .seq (.cls isCurrency) (.seq (.starCls isPySpace true) moneyNumRE)

/-- `[:\s]`. -/
def isColonSpace (c : Char) : Bool := c = ':' || isPySpace c

/-- `last\s+bottle[:\s]*\$?([\d,]+\.?\d*)`. -/
def lbp1RE : RE :=
  .seq (lits "last")
    (.seq (plusCls isPySpace)
      (.seq (lits "bottle")
        (.seq (.starCls isColonSpace true)
          (.seq (.opt (litc '$') true) (.grp moneyNumRE)))))

/-- `lastbottle[:\s]*\$?([\d,]+\.?\d*)`. -/
def lbp2RE : RE :=
  .seq (lits "lastbottle")
    (.seq (.starCls isColonSpace true)
      (.seq (.opt (litc '$') true) (.grp moneyNumRE)))

/-- `last\s*bottle[^$€£\d]*?([$€£]\s*[\d,]+\.?\d*)` (lazy middle). -/
def lbp3RE : RE :=
  .seq kwRE
    (.seq (.starCls (fun c => !(isCurrency c || isDig c)) false)
      (.grp curMoneyRE))

/-- The characters `re.sub(r'[,$€£\s]', '', _)` deletes. -/
def cleanMoney (g : List Char) : List Char :=
  g.filter (fun c => !(c = ',' || isCurrency c || isPySpace c))

/-- First phase of `_extract_last_bottle_price`: the `last bottle` patterns,
group cleaned of currency/commas/spaces then `float(...)`, `ValueError`
skipping to the next pattern. -/
def tryPatsA (text : List Char) : List RE → Option ℚ
  | [] => none
  | r :: rest =>
      match reSearch r text with
      | some (some g) =>
          match pyFloat (cleanMoney g) with
          | some q => some q
          | none => tryPatsA text rest
      | _ => tryPatsA text rest

/-- `(?:deal|sale|offer|special)`. -/
def kwDealRE : RE :=
  .alt (lits "deal") (.alt (lits "sale") (.alt (lits "offer") (lits "special")))

/-- `[:\-]`. -/
def isColonDash (c : Char) : Bool := c = ':' || c = '-'

/-- `(?:deal|sale|offer|special)\s*[:\-]?\s*([$€£]\s*[\d,]+\.?\d*)`. -/
def deal1RE : RE :=
  .seq kwDealRE
    (.seq (.starCls isPySpace true)
      (.seq (.opt (.cls isColonDash) true)
        (.seq (.starCls isPySpace true) (.grp curMoneyRE))))

/-- `([$€£]\s*[\d,]+\.?\d*)\s*(?:deal|sale|offer|special)`. -/
def deal2RE : RE :=
  .seq (.grp curMoneyRE) (.seq (.starCls isPySpace true) kwDealRE)

/-- `(?:deal-price|sale-price|current-price|price)\D*([$€£]\s*[\d,]+\.?\d*)`. -/
def deal3RE : RE :=
  .seq (.alt (lits "deal-price")
          (.alt (lits "sale-price") (.alt (lits "current-price") (lits "price"))))
    (.seq (.starCls (fun c => !isDig c) true) (.grp curMoneyRE))

/-- `[\d,]+\.?\d*` as a whole-match pattern (`price_match.group()`). -/
def numOnlyRE : RE := .grp moneyNumRE

/-- Second phase: deal-keyword patterns; the captured money text has commas
removed, its numeric part re-extracted and `float`ed. -/
def tryPatsB (text : List Char) : List RE → Option ℚ
  | [] => none
  | r :: rest =>
      match reSearch r text with
      | some (some g) =>
          match reSearch numOnlyRE (stripCommas g) with
          | some (some h) =>
              match pyFloat h with
              | some q => some q
              | none => tryPatsB text rest
          | _ => tryPatsB text rest
      | _ => tryPatsB text rest

/-- Trailing-whitespace removal (recursive formulation of `rstrip`). -/
def dropTrail : List Char → List Char
  | [] => []
  | c :: r =>
      let t := dropTrail r
      if isPySpace c && t.isEmpty then [] else c :: t

/-- `str.strip()`. -/
def pyStripL (l : List Char) : List Char :=
  dropTrail (l.dropWhile isPySpace)

/-- `hay` starts with `pat`. -/
def leadsWith : List Char → List Char → Bool
  | _, [] => true
  | [], _ :: _ => false
  | c :: t, d :: p => c = d && leadsWith t p

/-- Python `pat in hay` (substring containment). -/
def hasSub : List Char → List Char → Bool
  | l, p =>
      if leadsWith l p then true
      else
        match l with
        | [] => false
        | _ :: t => hasSub t p

/-- Helper for `splitNl`: accumulate the current line (reversed). -/
def splitNlAux : List Char → List Char → List (List Char)
  | acc, [] => [acc.reverse]
  | acc, c :: rest =>
      if c = '\n' then acc.reverse :: splitNlAux [] rest
      else splitNlAux (c :: acc) rest

/-- Split on newline characters (`str.split('\n')`). -/
def splitNl (l : List Char) : List (List Char) :=
  splitNlAux [] l

/-- Final fallback of `_extract_last_bottle_price`: first line that is not a
retail/best-web line and contains a currency amount. -/
def lineStep (line : List Char) : Option ℚ :=
  let l := (pyStripL line).map pyLowerChar
  if hasSub l ("retail" : String).data || hasSub l ("best web" : String).data
  then none
  else
    match reSearch (.grp curMoneyRE) l with
    | some (some g) =>
        match reSearch numOnlyRE (stripCommas g) with
        | some (some h) => pyFloat h
        | _ => none
    | _ => none

/-- `_extract_last_bottle_price` (`app/extract.py`): LastBottle-keyword
patterns, then deal-keyword patterns, then any price on a line not mentioning
retail or best web. -/
def extract_last_bottle_price (text : List Char) : Option ℚ :=
  match tryPatsA text [lbp1RE, lbp2RE, lbp3RE] with
  | some q => some q
  | none =>
      match tryPatsB text [deal1RE, deal2RE, deal3RE] with
      | some q => some q
      | none => (splitNl text).findSome? lineStep

/-! ## `app/extract.py`: `_extract_vintage_from_text` -/

/-- `\d{4}` as a capture. -/
def year4RE : RE := .grp (.repCls isDig 4 4 true)

/-- `vintage[:\s]*(\d{4})`. -/
def vint1RE : RE :=
  .seq (lits "vintage") (.seq (.starCls isColonSpace true) year4RE)

/-- `<span[^>]*class="vintage"[^>]*>(\d{4})</span>`. -/
def vint2RE : RE :=
  .seq (lits "<span")
    (.seq (.starCls (fun c => c != '>') true)
      (.seq (lits "class=\"vintage\"")
        (.seq (.starCls (fun c => c != '>') true)
          (.seq (litc '>') (.seq year4RE (lits "</span>"))))))

/-- `class="vintage"[^>]*>(\d{4})`. -/
def vint3RE : RE :=
  .seq (lits "class=\"vintage\"")
    (.seq (.starCls (fun c => c != '>') true) (.seq (litc '>') year4RE))

/-- `\b(19[5-9]\d|20[0-4]\d)\b`. -/
def bareVintRE : RE :=
  .seq .wb
    (.seq (.grp (.alt
        (.seq (lits "19") (.seq (.cls (fun c => '5' ≤ c && c ≤ '9')) (.cls isDig)))
        (.seq (lits "20") (.seq (.cls (fun c => '0' ≤ c && c ≤ '4')) (.cls isDig)))))
      .wb)

/-- The explicit-vintage patterns, each gated by the 1950–2040 range; an
out-of-range hit falls through to the next pattern. -/
def vintFromPats (text : List Char) : List RE → Option (List Char)
  | [] => none
  | r :: rest =>
      match reSearch r text with
      | some (some g) =>
          if 1950 ≤ digitsVal g && digitsVal g ≤ 2040 then
            some (Nat.toDigits 10 (digitsVal g))
          else vintFromPats text rest
      | _ => vintFromPats text rest

/-- `_extract_vintage_from_text` (`app/extract.py`). -/
def extract_vintage_from_text (text : List Char) : Option (List Char) :=
  match vintFromPats text [vint1RE, vint2RE, vint3RE] with
  | some v => some v
  | none =>
      match reSearch bareVintRE text with
      | some (some g) =>
          if 1950 ≤ digitsVal g && digitsVal g ≤ 2040 then
            some (Nat.toDigits 10 (digitsVal g))
          else none
      | _ => none

/-! ## `app/models.py`: `_SIZE_PATTERNS` and `normalize_bottle_size` -/

/-- `\b(D)\s*ml\b` for a digit string `D`. -/
def szMl (d : String) : RE :=
  .seq .wb (.seq (.grp (lits d)) (.seq (.starCls isPySpace true) (.seq (lits "ml") .wb)))

/-- `\b(D)\s*l\b` for a number string `D`. -/
def szL (d : String) : RE :=
  .seq .wb (.seq (.grp (lits d)) (.seq (.starCls isPySpace true) (.seq (litc 'l') .wb)))

/-- `\bw\b` for a word (or word alternation) `w`. -/
def wtok (r : RE) : RE := .seq .wb (.seq r .wb)

/-- `\bD\s*ml\b` without a group. -/
def szMlN (d : String) : RE :=
  .seq .wb (.seq (lits d) (.seq (.starCls isPySpace true) (.seq (lits "ml") .wb)))

/-- `\bD\s*l\b` without a group. -/
def szLN (d : String) : RE :=
  .seq .wb (.seq (lits d) (.seq (.starCls isPySpace true) (.seq (litc 'l') .wb)))

/-- `\bdouble\s+magnum\b`. -/
def dmRE : RE :=
  .seq .wb (.seq (lits "double") (.seq (plusCls isPySpace) (.seq (lits "magnum") .wb)))

/-- `\bdouble\s+magnum\s+3\s*l\b`. -/
def dm3lRE : RE :=
  .seq .wb
    (.seq (lits "double")
      (.seq (plusCls isPySpace)
        (.seq (lits "magnum")
          (.seq (plusCls isPySpace)
            (.seq (litc '3') (.seq (.starCls isPySpace true) (.seq (litc 'l') .wb)))))))

/-- `\b(187)\s*ml\b|\b(split|piccolo)\b`. -/
def p187RE : RE := .alt (szMl "187") (wtok (.grp (.alt (lits "split") (lits "piccolo"))))

/-- `\b(375)\s*ml\b|\b(0\.375)\s*l\b|\b(half|demi)\b`. -/
def p375RE : RE :=
  .alt (szMl "375") (.alt (szL "0.375") (wtok (.grp (.alt (lits "half") (lits "demi")))))

/-- `\b(500)\s*ml\b|\b(0\.5)\s*l\b`. -/
def p500RE : RE := .alt (szMl "500") (szL "0.5")

/-- `\b(620)\s*ml\b`. -/
def p620RE : RE := szMl "620"

/-- `\b(720)\s*ml\b`. -/
def p720RE : RE := szMl "720"

/-- `\b(750)\s*ml\b|\b(0\.75)\s*l\b`. -/
def p750RE : RE := .alt (szMl "750") (szL "0.75")

/-- `\b1\s*l\b|\b1000\s*ml\b`. -/
def p1000RE : RE := .alt (szLN "1") (szMlN "1000")

/-- `\b3\s*l\b|\b3000\s*ml\b|\bjeroboam\b`. -/
def p3000RE : RE := .alt (szLN "3") (.alt (szMlN "3000") (wtok (lits "jeroboam")))

/-- `\b6\s*l\b|\b6000\s*ml\b|\b(imperial)\b`. -/
def p6000RE : RE := .alt (szLN "6") (.alt (szMlN "6000") (wtok (.grp (lits "imperial"))))

/-- `\b1\.5\s*l\b|\b1500\s*ml\b|\bmagnum\b`. -/
def pMagRE : RE := .alt (szLN "1.5") (.alt (szMlN "1500") (wtok (lits "magnum")))

/-- `_SIZE_PATTERNS` (`app/models.py`), in source order. -/
def sizePatterns : List (RE × ℕ) :=
  [(p187RE, 187), (p375RE, 375), (p500RE, 500), (p620RE, 620), (p720RE, 720),
   (p750RE, 750), (p1000RE, 1000), (dm3lRE, 3000), (dmRE, 3000),
   (p3000RE, 3000), (p6000RE, 6000), (pMagRE, 1500)]

/-- `\b([0-9]+(?:\.[0-9]+)?)\s*l\b` — the generic liter fallback. -/
def genLRE : RE :=
  .seq .wb (.seq (.grp numRE) (.seq (.starCls isPySpace true) (.seq (litc 'l') .wb)))

/-- `\b([0-9]{2,4})\s*ml\b` — the generic milliliter fallback. -/
def genMlRE : RE :=
  .seq .wb
    (.seq (.grp (.repCls isDig 2 4 true))
      (.seq (.starCls isPySpace true) (.seq (lits "ml") .wb)))

/-- One `_SIZE_PATTERNS` entry applied to the lowered text: its size when
the pattern matches. -/
def sizeHit (t : List Char) (pr : RE × ℕ) : Option ℕ :=
  if (reSearch pr.1 t).isSome then some pr.2 else none

/-- `normalize_bottle_size` (`app/models.py`): `None`/empty text give 750;
otherwise the ordered `_SIZE_PATTERNS` list is evaluated first-match-wins on
the lowered text, then the generic liter (0.1–6.0 L) and milliliter
(100–6000 ml) fallbacks, and finally the 750 default. -/
def normalize_bottle_size (text : Option (List Char)) : ℕ :=
  match text with
  | none => 750
  | some l =>
      if l.isEmpty then 750
      else
        let t := l.map pyLowerChar
        match sizePatterns.findSome? (sizeHit t) with
        | some ml => ml
        | none =>
            let viaL : Option ℕ :=
              match reSearch genLRE t with
              | some (some g) =>
                  match pyFloat g with
                  | some liters =>
                      if mkRat 1 10 ≤ liters && liters ≤ 6 then
                        some (rndMulNat liters 1000)
                      else none
                  | none => none
              | _ => none
            match viaL with
            | some ml => ml
            | none =>
                match reSearch genMlRE t with
                | some (some g) =>
                    let v := digitsVal g
                    if 100 ≤ v && v ≤ 6000 then v else 750
                | _ => 750

/-! ## `app/extract.py`: `deal_key` -/

/-- NFD decomposition table for the accented letters of the repertoire
(lowercase suffices: `deal_key` lowercases before normalising). -/
def nfdChar : Char → List Char
  | 'â' => ['a', '̂']
  | 'é' => ['e', '́']
  | 'è' => ['e', '̀']
  | 'ê' => ['e', '̂']
  | 'ô' => ['o', '̂']
  | 'û' => ['u', '̂']
  | 'ü' => ['u', '̈']
  | 'ç' => ['c', '̧']
  | 'à' => ['a', '̀']
  | c => [c]

/-- The combining marks (`unicodedata.category == 'Mn'`) produced by the
table. -/
def isMark (c : Char) : Bool :=
  c = '̀' || c = '́' || c = '̂' || c = '̈' || c = '̧'

/-- Whitespace-run collapsing, `re.sub(r'\s+', ' ', _)`: the flag records
whether the previous character was whitespace (already emitted as one `' '`).
Note it does not trim. -/
def collapseA : Bool → List Char → List Char
  | _, [] => []
  | flag, c :: r =>
      if isPySpace c then
        if flag then collapseA true r else ' ' :: collapseA true r
      else c :: collapseA false r

/-- The accent/punctuation character pipeline shared by the title
normalisation: NFD-decompose, drop combining marks, drop `[^\w\s]`. -/
def charPipe (l : List Char) : List Char :=
  ((l.flatMap nfdChar).filter (fun c => !isMark c)).filter
    (fun c => isPyWord c || isPySpace c)

/-- The title normalisation of `deal_key` (`app/extract.py`): lowercase,
strip, NFD + drop marks, drop punctuation, collapse whitespace runs.  The
strip happens before punctuation removal, and the final collapse does not
trim. -/
def normTitle (t : List Char) : List Char :=
  collapseA false (charPipe (pyStripL (t.map pyLowerChar)))

/-- `vintage if vintage else "unknown"` (empty string is falsy). -/
def vintOrUnknown (v : Option (List Char)) : List Char :=
  match v with
  | some s => if s.isEmpty then ("unknown" : String).data else s
  | none => ("unknown" : String).data

/-- `deal_key` (`app/extract.py`). -/
def deal_key (title : List Char) (vintage : Option (List Char)) (price : ℚ) :
    List Char :=
  normTitle title ++ '|' :: vintOrUnknown vintage ++ '|' :: fmt2 price

/-- Modelled from the spec (§3 DealKey): "lowercase, Unicode-decompose and
strip diacritics, strip all non-word/non-space characters, collapse
whitespace" — the canonical form under which two titles "differ only by
accents, case, or punctuation" exactly when their canonical forms are equal.
Trimming/collapsing happens once, at the end. -/
def specTitleCanon (t : List Char) : List Char :=
  pyStripL (collapseA false (charPipe (t.map pyLowerChar)))

/-! ## `app/config.py` -/

/-- `GENERIC_MARKERS` — the second entry is the mojibake variant present in
the source. -/
def genericMarkers : List (List Char) :=
  [("last bottle - your daily purveyor of fine wine" : String).data,
   ("last bottle â€“ your daily purveyor of fine wine" : String).data]

/-- `is_generic_title` (`app/config.py`): strip, lowercase, empty or any
marker as a substring. -/
def is_generic_title (title : List Char) : Bool :=
  let t := (pyStripL title).map pyLowerChar
  t.isEmpty || genericMarkers.any (fun m => hasSub t m)

/-- `LASTBOTTLE_URL` default. -/
def LASTBOTTLE_URL : List Char := ("https://www.lastbottlewines.com/" : String).data

/-! ## `app/models.py`: `Deal` and `app/extract.py`: `extract_deal_from_json` -/

/-- The `Deal` pydantic model's fields. -/
structure Deal where
  title : List Char
  price : ℚ
  list_price : Option ℚ
  vintage : Option (List Char)
  region : Option (List Char)
  url : List Char
  bottle_size_ml : ℕ
deriving DecidableEq

/-- `Deal(...)` construction with pydantic's validation (`price` with
`gt=0`, `list_price` with `gt=0` when present); a violation raises
`ValidationError ⊂ ValueError`, modelled as `none`. -/
def mkDeal (d : Deal) : Option Deal :=
  if 0 < d.price then
    if d.list_price.all (fun lp => decide (0 < lp)) then some d else none
  else none

/-- A Python value accepted by a pydantic `str | None` field, as the field's
value; `none` is a `ValidationError`. -/
def asStrOpt : JValue → Option (Option (List Char))
  | .null => some none
  | .str s => some (some s)
  | _ => none

/-- The title field chain of `extract_deal_from_json`:
`obj.get("name") or obj.get("title") or obj.get("product_name")`. -/
def titleOfJ (o : List (List Char × JValue)) : JValue :=
  pyOr (dictGet o ("name" : String).data)
    (pyOr (dictGet o ("title" : String).data)
      (dictGet o ("product_name" : String).data))

/-- The URL field chain of `extract_deal_from_json`. -/
def urlOfJ (o : List (List Char × JValue)) : JValue :=
  pyOr (dictGet o ("url" : String).data)
    (pyOr (dictGet o ("link" : String).data)
      (dictGet o ("product_url" : String).data))

/-- The price of `extract_deal_from_json`: `pick_lastbottle_price`, falling
back to the generic price fields through `_to_float`. -/
def priceOfJ (o : List (List Char × JValue)) : Option ℚ :=
  match pick_lastbottle_price (.obj o) with
  | some p => some p
  | none =>
      to_float (pyOr (dictGet o ("price" : String).data)
        (pyOr (dictGet o ("sale_price" : String).data)
          (dictGet o ("current_price" : String).data)))

/-- `extract_deal_from_json` (`app/extract.py`).  The `except (KeyError,
ValueError, TypeError)` handler turns pydantic validation failures into
`None` (`.ok none`); an `AttributeError` — a truthy non-string title reaching
`normalize_bottle_size(...).lower()` with no size label — escapes
(`.error ()`). -/
def extract_deal_from_json (o : List (List Char × JValue)) :
    Except Unit (Option Deal) :=
  let title := titleOfJ o
  let url := urlOfJ o
  match priceOfJ o with
  | none => .ok none
  | some p =>
      if p = 0 || !truthyJ title || !truthyJ url then .ok none
      else
        let list_price := to_float (pyOr (dictGet o ("list_price" : String).data)
            (pyOr (dictGet o ("original_price" : String).data)
              (dictGet o ("msrp" : String).data)))
        let vraw := pyOr (dictGet o ("vintage" : String).data)
            (dictGet o ("year" : String).data)
        let vjv := if truthyJ vraw then JValue.str (pyStr vraw) else vraw
        let sizeLabel := pyOr (dictGet o ("size" : String).data)
            (pyOr (dictGet o ("bottle_size" : String).data)
              (dictGet o ("format" : String).data))
        let sizeTextE : Except Unit (List Char) :=
          if truthyJ sizeLabel then .ok (pyStr title ++ ' ' :: pyStr sizeLabel)
          else
            match title with
            | .str s => .ok s
            | _ => .error ()
        match sizeTextE with
        | .error e => .error e
        | .ok sizeText =>
            let rraw := pyOr (dictGet o ("region" : String).data)
                (pyOr (dictGet o ("appellation" : String).data)
                  (dictGet o ("origin" : String).data))
            match asStrOpt vjv, asStrOpt rraw with
            | some vv, some rr =>
                .ok (mkDeal ⟨pyStr title, p, list_price, vv, rr, pyStr url,
                  normalize_bottle_size (some sizeText)⟩)
            | _, _ => .ok none

/-! ## `app/watcher.py`: deduplication in `_process_deal_details` -/

/-- `DealDetails` (`app/models.py`): pydantic requires `deal_price > 0`. -/
structure DealDetails where
  wine_name : List Char
  vintage : Option ℤ
  bottle_size_ml : ℕ
  deal_price : ℚ
deriving DecidableEq

/-- `DEDUP_WINDOW_SECONDS = 5 * 60` (`app/watcher.py`). -/
def DEDUP_WINDOW_SECONDS : ℚ := 5 * 60

/-- Association lookup (`key in dict` / `dict[key]`). -/
def aLookup (m : List (List Char × ℚ)) (k : List Char) : Option ℚ :=
  (m.find? (fun e => e.1 = k)).map (fun e => e.2)

/-- `dict[key] = v`: update in place, or append. -/
def aInsert (m : List (List Char × ℚ)) (k : List Char) (v : ℚ) :
    List (List Char × ℚ) :=
  if (m.find? (fun e => e.1 = k)).isSome then
    m.map (fun e => if e.1 = k then (k, v) else e)
  else m ++ [(k, v)]

/-- The dedup key built by `_process_deal_details`:
`deal_key(wine_name, str(vintage) if vintage else None, deal_price)`. -/
def procKey (d : DealDetails) : List Char :=
  deal_key d.wine_name
    (match d.vintage with
     | some z => if z ≠ 0 then some (pyStr (.int z)) else none
     | none => none)
    d.deal_price

/-- The seen-map step of `_process_deal_details` (`app/watcher.py` lines
361–383): duplicate within the window → suppress without refreshing;
otherwise record `now` and, over the 100-entry cap, evict entries older than
twice the window.  Returns (is-duplicate, new map). -/
def watcherDedup (seen : List (List Char × ℚ)) (key : List Char) (now : ℚ) :
    Bool × List (List Char × ℚ) :=
  let hit : Bool :=
    match aLookup seen key with
    | some last => decide (now - last < DEDUP_WINDOW_SECONDS)
    | none => false
  if hit then (true, seen)
  else
    let s1 := aInsert seen key now
    let s2 :=
      if s1.length > 100 then
        s1.filter (fun e => decide (now - 2 * DEDUP_WINDOW_SECONDS < e.2))
      else s1
    (false, s2)

/-- Outcome of one `_process_deal_details` call: the price carried by the
notification (if one is sent) and the updated seen-map.  Both the
enrichment-success and the enrichment-failure paths notify with
`deal_price = deal_details.deal_price`, so a forwarded deal always notifies
with exactly the candidate's price. -/
structure ProcOut where
  notified : Option ℚ
  seen : List (List Char × ℚ)
  key : List Char
deriving DecidableEq

/-- The pure dedup/notification skeleton of `_process_deal_details`
(`app/watcher.py`): build the key, suppress duplicates inside the window,
otherwise record and notify with the candidate's own price.  No price-floor
check occurs anywhere in this path. -/
def processDealDetails (d : DealDetails) (seen : List (List Char × ℚ))
    (now : ℚ) : ProcOut :=
  let key := procKey d
  let r := watcherDedup seen key now
  if r.1 then ⟨none, r.2, key⟩ else ⟨some d.deal_price, r.2, key⟩

/-! ## `app/watcher_minimal.py`: `run_minimal_watcher` loop body -/

/-- `_deal_id` (`app/watcher_minimal.py`): `(title or "").strip().lower()`. -/
def deal_id (title : List Char) : List Char :=
  (pyStripL title).map pyLowerChar

/-- The price plausibility floor of the minimal watcher (lines 131–135):
a present price below 5.0 becomes `None`. -/
def minimalPriceFloor (p : Option ℚ) : Option ℚ :=
  match p with
  | some q => if q < 5 then none else some q
  | none => none

/-- One iteration of the minimal watcher's monitoring loop
(`app/watcher_minimal.py` lines 120–170), as a pure function of the extracted
(title, price) and the `last_deal_id` state: returns the notified deal (if
any) and the new `last_deal_id`.  A `Deal` validation error (price `None` →
`0.0`, which violates `gt=0`) is swallowed by the loop's `except`, sending
nothing and leaving the state unchanged. -/
def minimalStep (title : List Char) (price : Option ℚ)
    (lastId : Option (List Char)) : Option Deal × Option (List Char) :=
  if title.isEmpty || is_generic_title title then (none, lastId)
  else
    let price2 := minimalPriceFloor price
    let id := deal_id title
    if !id.isEmpty && decide (some id ≠ lastId) then
      match mkDeal ⟨pyStripL title,
          (match price2 with | some q => q | none => 0),
          none, none, none, LASTBOTTLE_URL, 750⟩ with
      | some d => (some d, some id)
      | none => (none, lastId)
    else (none, lastId)

/-! ## `app/enrichment.py`: `enrich_deal` -/

/-- The six-field Vivino dict produced by `get_vivino_info` (or the empty one
substituted on failure). -/
structure VivinoRec where
  vintage_rating : Option ℚ
  vintage_price : Option ℚ
  vintage_reviews : Option ℤ
  overall_rating : Option ℚ
  overall_price : Option ℚ
  overall_reviews : Option ℤ
deriving DecidableEq

/-- The all-absent Vivino record built in the `except` branch. -/
def emptyVivino : VivinoRec := ⟨none, none, none, none, none, none⟩

/-- `EnrichedDeal` (`app/models.py`). -/
structure EnrichedDeal where
  wine_name : List Char
  vintage : Option ℤ
  bottle_size_ml : ℕ
  deal_price : ℚ
  vintage_rating : Option ℚ
  vintage_price : Option ℚ
  vintage_reviews : Option ℤ
  overall_rating : Option ℚ
  overall_price : Option ℚ
  overall_reviews : Option ℤ
deriving DecidableEq

/-- `EnrichedDeal(...)` with pydantic's field constraints (`deal_price > 0`,
ratings in [1,5], prices positive, review counts non-negative). -/
def mkEnrichedDeal (e : EnrichedDeal) : Option EnrichedDeal :=
  if 0 < e.deal_price
      && e.vintage_rating.all (fun r => decide (1 ≤ r ∧ r ≤ 5))
      && e.vintage_price.all (fun r => decide (0 < r))
      && e.vintage_reviews.all (fun r => decide (0 ≤ r))
      && e.overall_rating.all (fun r => decide (1 ≤ r ∧ r ≤ 5))
      && e.overall_price.all (fun r => decide (0 < r))
      && e.overall_reviews.all (fun r => decide (0 ≤ r))
  then some e else none

/-- `enrich_deal` (`app/enrichment.py`): the outcome of the
`get_vivino_info` call is passed in as an `Except` (it is an external network
collaborator); any raised exception is caught and replaced by the empty
record, after which the enriched deal is assembled from the input deal's core
fields plus the six Vivino fields. -/
def enrich_deal (lookup : Except (List Char) VivinoRec) (d : DealDetails) :
    Option EnrichedDeal :=
  let vd := match lookup with
    | .ok r => r
    | .error _ => emptyVivino
  mkEnrichedDeal ⟨d.wine_name, d.vintage, d.bottle_size_ml, d.deal_price,
    vd.vintage_rating, vd.vintage_price, vd.vintage_reviews,
    vd.overall_rating, vd.overall_price, vd.overall_reviews⟩

/-- Shorthand: the character list of a string literal. -/
def S (s : String) : List Char := s.data

deriving instance DecidableEq for Except

/-! ## Claim C2 — the deduplication window -/

/-- C2: for a key whose first sighting is recorded at `t0`, a second
observation at `t0 + d` is a duplicate (suppressed, seen-map not refreshed)
iff `d < DEDUP_WINDOW_SECONDS` (= 300); at `d ≥` the window it is treated as
new.  Observations of one key at t = 0, 100 and 400 are forwarded,
suppressed, forwarded (with the timestamp refreshed to 400). -/
theorem C2_dedup_window :
    (∀ (seen : List (List Char × ℚ)) (key : List Char) (t0 d : ℚ),
        aLookup seen key = some t0 →
        (((watcherDedup seen key (t0 + d)).1 = true) ↔ d < DEDUP_WINDOW_SECONDS)
        ∧ (d < DEDUP_WINDOW_SECONDS → (watcherDedup seen key (t0 + d)).2 = seen))
    ∧ (∀ key : List Char,
        watcherDedup [] key 0 = (false, [(key, 0)])
        ∧ watcherDedup [(key, 0)] key 100 = (true, [(key, 0)])
        ∧ watcherDedup [(key, 0)] key 400 = (false, [(key, 400)])) := by
  constructor
  · intro seen key t0 d h
    have e : t0 + d - t0 = d := by ring
    constructor
    · by_cases hd : d < DEDUP_WINDOW_SECONDS <;>
        simp [watcherDedup, h, e, hd]
    · intro hd
      simp [watcherDedup, h, e, hd]
  · intro key
    have h100 : ¬ ((100 : ℚ) - 0 < DEDUP_WINDOW_SECONDS) = False := by
      simp [DEDUP_WINDOW_SECONDS]
      norm_num
    refine ⟨?_, ?_, ?_⟩
    · simp [watcherDedup, aLookup, aInsert]
    · simp [watcherDedup, aLookup, aInsert, DEDUP_WINDOW_SECONDS]
      norm_num
    · simp [watcherDedup, aLookup, aInsert, DEDUP_WINDOW_SECONDS]
      norm_num

/-- Witness for C2 at a concrete instance. -/
theorem C2_dedup_window_witness :
    aLookup [(['k'], (0 : ℚ))] ['k'] = some 0
    ∧ (((watcherDedup [(['k'], (0 : ℚ))] ['k'] (0 + 100)).1 = true)
        ↔ (100 : ℚ) < DEDUP_WINDOW_SECONDS) :=
  ⟨by with_unfolding_all decide,
   (C2_dedup_window.1 [(['k'], (0 : ℚ))] ['k'] 0 100
      (by with_unfolding_all decide)).1⟩

/-! ## Claim C3 — the 5.00 price plausibility floor -/

/-- C3 counterexample: a candidate with price 2.50 < 5.00 (producible by the
text extractor from "Last Bottle $2.50") is keyed and notified by the main
watcher pipeline with that price — the price is not discarded. -/
theorem C3_price_floor_counterexample :
    extract_last_bottle_price (S "Last Bottle $2.50") = some (5 / 2)
    ∧ ((5 : ℚ) / 2 < 5)
    ∧ processDealDetails ⟨S "cheap wine", none, 750, 5 / 2⟩ [] 0 =
        ⟨some (5 / 2), [(S "cheap wine|unknown|2.50", 0)],
          S "cheap wine|unknown|2.50"⟩ := by
  with_unfolding_all decide

/-- C3 as amended: only the minimal watcher (`run_minimal_watcher`) floors
the price — a present price `< 5` becomes absent there — while the main
pipeline (`_process_deal_details`) notifies every forwarded candidate with
its own price, unfloored. -/
theorem C3_price_floor_minimal_only :
    (∀ q : ℚ, q < 5 → minimalPriceFloor (some q) = none)
    ∧ (∀ q : ℚ, ¬ q < 5 → minimalPriceFloor (some q) = some q)
    ∧ minimalPriceFloor none = none
    ∧ (∀ (d : DealDetails) (seen : List (List Char × ℚ)) (now : ℚ),
        (processDealDetails d seen now).notified ≠ none →
        (processDealDetails d seen now).notified = some d.deal_price) := by
  refine ⟨?_, ?_, rfl, ?_⟩
  · intro q h
    simp [minimalPriceFloor, h]
  · intro q h
    simp [minimalPriceFloor, h]
  · intro d seen now h
    unfold processDealDetails at h ⊢
    cases hx : (watcherDedup seen (procKey d) now).1 <;> simp [hx] at h ⊢

/-- Witness for C3 at concrete instances. -/
theorem C3_price_floor_minimal_only_witness :
    ((2 : ℚ) < 5 ∧ minimalPriceFloor (some 2) = none)
    ∧ (¬ (7 : ℚ) < 5 ∧ minimalPriceFloor (some 7) = some 7) :=
  ⟨⟨by norm_num, C3_price_floor_minimal_only.1 2 (by norm_num)⟩,
   ⟨by norm_num, C3_price_floor_minimal_only.2.1 7 (by norm_num)⟩⟩

/-! ## Claim C5 — generic-title rejection -/

set_option maxRecDepth 200000 in
/-- C5 counterexample: the JSON extraction strategy accepts a title that is
exactly a known site tagline (and `is_generic_title` flags it). -/
theorem C5_generic_title_counterexample :
    is_generic_title (S "Last Bottle - Your Daily Purveyor of Fine Wine") = true
    ∧ extract_deal_from_json
        [(S "name", .str (S "Last Bottle - Your Daily Purveyor of Fine Wine")),
         (S "price", .int 20), (S "url", .str (S "https://x"))]
      = .ok (some ⟨S "Last Bottle - Your Daily Purveyor of Fine Wine", 20,
          none, none, none, S "https://x", 750⟩) := by
  with_unfolding_all decide

/-- C5 as amended: the generic-title detector gates only the minimal
watcher's loop — any title whose stripped, lowered form contains a known
tagline marker produces no notification there and leaves the state
unchanged.  (The extraction strategies of `extract.py` do not consult it;
see the counterexample.) -/
theorem C5_generic_gate_minimal_only :
    ∀ (title : List Char) (price : Option ℚ) (last : Option (List Char)),
      genericMarkers.any
          (fun m => hasSub ((pyStripL title).map pyLowerChar) m) = true →
      minimalStep title price last = (none, last) := by
  intro title price last h
  have hg : is_generic_title title = true := by
    simp only [is_generic_title, h, Bool.or_true]
  simp [minimalStep, hg]

/-- Witness for C5 at a concrete tagline. -/
theorem C5_generic_gate_minimal_only_witness :
    genericMarkers.any
        (fun m => hasSub
          ((pyStripL (S "  LAST BOTTLE - Your Daily Purveyor of Fine Wine ")).map
            pyLowerChar) m) = true
    ∧ minimalStep (S "  LAST BOTTLE - Your Daily Purveyor of Fine Wine ")
        (some 30) none = (none, none) :=
  ⟨by decide,
   C5_generic_gate_minimal_only _ (some 30) none (by decide)⟩

/-! ## Claim C7 — vintage plausibility range -/

/-- The explicit-pattern scan of `_extract_vintage_from_text` only returns
years within 1950–2040, rendered in decimal. -/
theorem vintFromPats_range :
    ∀ (l : List RE) (text v : List Char), vintFromPats text l = some v →
      ∃ y : ℕ, 1950 ≤ y ∧ y ≤ 2040 ∧ v = Nat.toDigits 10 y := by
  intro l
  induction l with
  | nil => intro text v h; simp [vintFromPats] at h
  | cons r rest ih =>
      intro text v h
      unfold vintFromPats at h
      split at h
      · split at h
        · rename_i hr
          simp only [Bool.and_eq_true, decide_eq_true_eq] at hr
          exact ⟨_, hr.1, hr.2, (Option.some.inj h).symm⟩
        · exact ih text v h
      · exact ih text v h

/-- C7 as amended: every vintage the text-based extractor
(`_extract_vintage_from_text`, used by the HTML strategies) produces is a
year within 1950–2040, in decimal; "Contains 1800 (not vintage)" yields no
vintage and "2023 Harvest" yields "2023".  (The JSON strategy copies the
payload's vintage field verbatim without any range check; see the
counterexample.) -/
theorem C7_vintage_range :
    (∀ text v : List Char, extract_vintage_from_text text = some v →
        ∃ y : ℕ, 1950 ≤ y ∧ y ≤ 2040 ∧ v = Nat.toDigits 10 y)
    ∧ extract_vintage_from_text (S "Contains 1800 (not vintage)") = none
    ∧ extract_vintage_from_text (S "2023 Harvest") = some (S "2023") := by
  refine ⟨?_, by decide, by decide⟩
  intro text v h
  unfold extract_vintage_from_text at h
  split at h
  · rename_i w hp
    cases h
    exact vintFromPats_range _ text v hp
  · split at h
    · split at h
      · rename_i hr
        simp only [Bool.and_eq_true, decide_eq_true_eq] at hr
        exact ⟨_, hr.1, hr.2, (Option.some.inj h).symm⟩
      · cases h
    · cases h

/-- Witness for C7's universal part at a concrete text. -/
theorem C7_vintage_range_witness :
    ∃ y : ℕ, 1950 ≤ y ∧ y ≤ 2040 ∧ (S "2023") = Nat.toDigits 10 y :=
  C7_vintage_range.1 (S "2023 Harvest") (S "2023") (by decide)

set_option maxRecDepth 200000 in
/-- C7 counterexample: the JSON strategy produces a candidate whose vintage
is "1800", outside the plausible range. -/
theorem C7_vintage_range_counterexample :
    extract_deal_from_json
        [(S "name", .str (S "Wine")), (S "price", .int 20),
         (S "url", .str (S "u")), (S "vintage", .str (S "1800"))]
      = .ok (some ⟨S "Wine", 20, none, some (S "1800"), none, S "u", 750⟩)
    ∧ ¬ 1950 ≤ digitsVal (S "1800") := by
  with_unfolding_all decide

/-! ## Claim C9 — enrichment failure never blocks the deal -/

/-- C9: if the Vivino lookup fails with any exception, `enrich_deal` still
returns an `EnrichedDeal` whose core fields equal the input deal's and whose
six enrichment fields are all absent. -/
theorem C9_enrichment_failure_graceful :
    ∀ (d : DealDetails) (err : List Char), 0 < d.deal_price →
      enrich_deal (.error err) d =
        some ⟨d.wine_name, d.vintage, d.bottle_size_ml, d.deal_price,
          none, none, none, none, none, none⟩ := by
  intro d err h
  simp [enrich_deal, emptyVivino, mkEnrichedDeal, h]

/-- Witness for C9 at a concrete deal. -/
theorem C9_enrichment_failure_graceful_witness :
    (0 : ℚ) < 10
    ∧ enrich_deal (.error []) ⟨['w'], none, 750, 10⟩ =
        some ⟨['w'], none, 750, 10, none, none, none, none, none, none⟩ :=
  ⟨by norm_num, C9_enrichment_failure_graceful ⟨['w'], none, 750, 10⟩ []
    (by norm_num)⟩

/-! ## Engine metatheory: monotonicity in the continuation -/

/-- `k'` succeeds wherever `k` does. -/
def KLE (k k' : MK) : Prop :=
  ∀ p c g, (k p c g).isSome → (k' p c g).isSome

/-- `List.findSome?` succeeds iff the function succeeds on some element. -/
theorem findSome?_isSome_iff {α β : Type} (f : α → Option β) (l : List α) :
    (l.findSome? f).isSome ↔ ∃ x ∈ l, (f x).isSome := by
  induction l with
  | nil => simp [List.findSome?]
  | cons a l ih =>
      simp only [List.findSome?]
      cases hx : f a with
      | some b => simp [hx]
      | none => simp [hx, ih]

/-- A successful `findSome?` comes from some element. -/
theorem findSome?_mem_of_eq_some {α β : Type} {f : α → Option β} {l : List α}
    {v : β} (h : l.findSome? f = some v) : ∃ x ∈ l, f x = some v := by
  induction l with
  | nil => simp [List.findSome?] at h
  | cons a l ih =>
      unfold List.findSome? at h
      split at h
      · rename_i b hb
        exact ⟨a, List.mem_cons_self a l, by rw [hb, h]⟩
      · obtain ⟨x, hm, he⟩ := ih h
        exact ⟨x, List.mem_cons_of_mem a hm, he⟩

/-- `litK` is monotone in its continuation. -/
theorem litK_mono :
    ∀ (s : List Char) (prev : Option Char) (cs : List Char) (cap : MRes)
      (k k' : MK), KLE k k' →
      (litK s prev cs cap k).isSome → (litK s prev cs cap k').isSome := by
  intro s
  induction s with
  | nil => intro prev cs cap k k' h hm; exact h _ _ _ hm
  | cons a s0 ih =>
      intro prev cs cap k k' h hm
      cases cs with
      | nil => simp [litK] at hm
      | cons c cs0 =>
          simp only [litK] at hm ⊢
          by_cases he : pyLowerChar a = pyLowerChar c
          · rw [if_pos he] at hm ⊢; exact ih _ _ _ _ _ h hm
          · rw [if_neg he] at hm; simp at hm

/-- The matcher is monotone in its continuation: enlarging the set of inputs
the continuation accepts cannot lose a match. -/
theorem matchK_mono :
    ∀ (r : RE) (prev : Option Char) (cs : List Char) (cap : MRes)
      (k k' : MK), KLE k k' →
      (matchK r prev cs cap k).isSome → (matchK r prev cs cap k').isSome := by
  intro r
  induction r with
  | eps => intro prev cs cap k k' h hm; exact h _ _ _ hm
  | cls p =>
      intro prev cs cap k k' h hm
      cases cs with
      | nil => simp [matchK] at hm
      | cons c cs0 =>
          simp only [matchK] at hm ⊢
          by_cases hp : p c
          · rw [if_pos hp] at hm ⊢; exact h _ _ _ hm
          · rw [if_neg hp] at hm; simp at hm
  | lit s => intro prev cs cap k k' h hm; exact litK_mono s _ _ _ _ _ h hm
  | seq a b iha ihb =>
      intro prev cs cap k k' h hm
      unfold matchK at hm ⊢
      exact iha _ _ _ _ _ (fun p c g hx => ihb _ _ _ _ _ h hx) hm
  | alt a b iha ihb =>
      intro prev cs cap k k' h hm
      unfold matchK at hm ⊢
      cases hx : matchK a prev cs cap k with
      | some r0 =>
          have h1 : (matchK a prev cs cap k').isSome :=
            iha _ _ _ _ _ h (by rw [hx]; rfl)
          cases hy : matchK a prev cs cap k' with
          | some r1 => simp
          | none => rw [hy] at h1; simp at h1
      | none =>
          rw [hx] at hm
          have h2 := ihb _ _ _ _ _ h hm
          cases hy : matchK a prev cs cap k' with
          | some r1 => simp
          | none => exact h2
  | starCls p g =>
      intro prev cs cap k k' h hm
      unfold matchK at hm ⊢
      rw [findSome?_isSome_iff] at hm ⊢
      obtain ⟨n, hn, hs⟩ := hm
      exact ⟨n, hn, h _ _ _ hs⟩
  | repCls p lo hi g =>
      intro prev cs cap k k' h hm
      unfold matchK at hm ⊢
      rw [findSome?_isSome_iff] at hm ⊢
      obtain ⟨n, hn, hs⟩ := hm
      exact ⟨n, hn, h _ _ _ hs⟩
  | opt a g iha =>
      intro prev cs cap k k' h hm
      unfold matchK at hm ⊢
      cases g with
      | true =>
          simp only [if_pos] at hm ⊢
          cases hx : matchK a prev cs cap k with
          | some r0 =>
              have h1 : (matchK a prev cs cap k').isSome :=
                iha _ _ _ _ _ h (by rw [hx]; rfl)
              cases hy : matchK a prev cs cap k' with
              | some r1 => simp
              | none => rw [hy] at h1; simp at h1
          | none =>
              rw [hx] at hm
              have h2 := h _ _ _ hm
              cases hy : matchK a prev cs cap k' with
              | some r1 => simp
              | none => exact h2
      | false =>
          simp only [Bool.false_eq_true, if_neg] at hm ⊢
          cases hx : k prev cs cap with
          | some r0 =>
              have h1 : (k' prev cs cap).isSome := h _ _ _ (by rw [hx]; rfl)
              cases hy : k' prev cs cap with
              | some r1 => simp
              | none => rw [hy] at h1; simp at h1
          | none =>
              rw [hx] at hm
              have h2 := iha _ _ _ _ _ h hm
              cases hy : k' prev cs cap with
              | some r1 => simp
              | none => exact h2
  | wb =>
      intro prev cs cap k k' h hm
      unfold matchK at hm ⊢
      by_cases hb : wordAt prev ≠ wordAt cs.head?
      · rw [if_pos hb] at hm ⊢; exact h _ _ _ hm
      · rw [if_neg hb] at hm; simp at hm
  | grp a iha =>
      intro prev cs cap k k' h hm
      unfold matchK at hm ⊢
      exact iha _ _ _ _ _ (fun p c g hx => h _ _ _ hx) hm

/-- A match with any continuation yields a match with the accepting one. -/
theorem matchK_top_of_isSome {r : RE} {prev : Option Char} {cs : List Char}
    {cap : MRes} {k : MK} (h : (matchK r prev cs cap k).isSome) :
    (matchK r prev cs cap topK).isSome :=
  matchK_mono r prev cs cap k topK (fun _ _ _ _ => rfl) h

/-- A match of `a ⬝ b` begins with a match of `a`. -/
theorem matchK_seq_head {a b : RE} {prev : Option Char} {cs : List Char}
    {cap : MRes} {k : MK} (h : (matchK (.seq a b) prev cs cap k).isSome) :
    (matchK a prev cs cap topK).isSome := by
  unfold matchK at h
  exact matchK_mono a prev cs cap _ topK (fun _ _ _ _ => rfl) h

/-- A search hit for `a ⬝ b` implies a search hit for `a`. -/
theorem searchFrom_seq_head {a b : RE} :
    ∀ (cs : List Char) (prev : Option Char),
      (searchFrom (.seq a b) prev cs).isSome → (searchFrom a prev cs).isSome := by
  intro cs
  induction cs with
  | nil =>
      intro prev h
      rw [searchFrom_eq] at h ⊢
      cases hx : matchK (.seq a b) prev [] none topK with
      | none => rw [hx] at h; simp at h
      | some r0 =>
          have h1 := matchK_seq_head (a := a) (b := b) (by rw [hx]; rfl)
          cases hy : matchK a prev [] none topK with
          | some r1 => simp
          | none => rw [hy] at h1; simp at h1
  | cons c rest ih =>
      intro prev h
      rw [searchFrom_eq] at h ⊢
      cases hx : matchK (.seq a b) prev (c :: rest) none topK with
      | some r0 =>
          have h1 := matchK_seq_head (a := a) (b := b) (by rw [hx]; rfl)
          cases hy : matchK a prev (c :: rest) none topK with
          | some r1 => simp
          | none => rw [hy] at h1; simp at h1
      | none =>
          rw [hx] at h
          have h2 := ih (some c) h
          cases hy : matchK a prev (c :: rest) none topK with
          | some r1 => simp
          | none => exact h2

/-! ## Claim C1 — offer-price isolation -/

/-- The text branch of `pick_lastbottle_price` cannot return anything when
the `last\s*bottle` keyword does not occur: its pattern literally begins with
the keyword pattern. -/
theorem pickText_none_of_no_kw (s : List Char) (h : reSearch kwRE s = none) :
    pickTextSearch s = none := by
  unfold pickTextSearch
  cases hx : reSearch pickRE s with
  | none => rfl
  | some g0 =>
      exfalso
      have h1 : (searchFrom pickRE none s).isSome := by
        unfold reSearch at hx
        rw [hx]
        rfl
      unfold pickRE at h1
      have h2 := searchFrom_seq_head _ _ h1
      unfold reSearch at h
      rw [h] at h2
      simp at h2

set_option maxRecDepth 200000 in
/-- C1 as amended: `pick_lastbottle_price`'s text mode returns absent on
every input with no `last bottle` keyword; `_extract_last_bottle_price`
instead falls back to deal-keyword and per-line prices (skipping only lines
mentioning retail / best web) and can return another dollar amount (see the
counterexample).  On the spec's examples both agree: 69.99 for the
Retail/Best-Web/Last-Bottle text, absent when only retail and best web
prices appear. -/
theorem C1_offer_price_isolation :
    (∀ s0 : List Char, reSearch kwRE s0 = none → pickTextSearch s0 = none)
    ∧ pickTextSearch
        (S "Retail $100.00 Best Web $85.00 Last Bottle Price $69.99")
        = some (6999 / 100)
    ∧ extract_last_bottle_price
        (S "Retail $100.00 Best Web $85.00 Last Bottle Price $69.99")
        = some (6999 / 100)
    ∧ pickTextSearch (S "Retail $100.00 Best Web $85.00") = none
    ∧ extract_last_bottle_price (S "Retail $100.00 Best Web $85.00") = none := by
  refine ⟨pickText_none_of_no_kw, ?_, ?_, by with_unfolding_all decide,
    by with_unfolding_all decide⟩
  · have h1 : reSearch pickRE
        (S "Retail $100.00 Best Web $85.00 Last Bottle Price $69.99")
        = some (some (S "$69.99")) := by with_unfolding_all decide
    have e : (6999 : ℚ) / 100 = mkRat 6999 100 := by
      rw [Rat.mkRat_eq_div]; norm_num
    unfold pickTextSearch
    rw [h1, e]
    decide
  · have ha : reSearch lbp1RE
        (S "Retail $100.00 Best Web $85.00 Last Bottle Price $69.99")
        = none := by with_unfolding_all decide
    have hb : reSearch lbp2RE
        (S "Retail $100.00 Best Web $85.00 Last Bottle Price $69.99")
        = none := by with_unfolding_all decide
    have hc : reSearch lbp3RE
        (S "Retail $100.00 Best Web $85.00 Last Bottle Price $69.99")
        = some (some (S "$69.99")) := by with_unfolding_all decide
    have e : (6999 : ℚ) / 100 = mkRat 6999 100 := by
      rw [Rat.mkRat_eq_div]; norm_num
    rw [e]
    simp only [extract_last_bottle_price, tryPatsA, ha, hb, hc]
    decide

/-- Witness for C1's universal part at a concrete keyword-free text. -/
theorem C1_offer_price_isolation_witness :
    reSearch kwRE (S "only retail here") = none
    ∧ pickTextSearch (S "only retail here") = none :=
  ⟨by decide, C1_offer_price_isolation.1 (S "only retail here") (by decide)⟩

/-- C1 counterexample: "Napa red $7" contains no offer-price keyword, yet
`_extract_last_bottle_price` returns 7.0 via its line-based fallback — it
does fall back to another dollar amount. -/
theorem C1_offer_price_isolation_counterexample :
    reSearch kwRE (S "Napa red $7") = none
    ∧ extract_last_bottle_price (S "Napa red $7") = some 7 := by
  with_unfolding_all decide

/-! ## Claim C10 — totality of `_to_float` -/

/-- `pyFloat` only produces non-negative values (its input grammar is
unsigned). -/
theorem pyFloat_nonneg {l : List Char} {q : ℚ} (h : pyFloat l = some q) :
    0 ≤ q := by
  simp only [pyFloat] at h
  split at h
  · split at h
    · simp at h
    · rw [← Option.some.inj h, Rat.mkRat_eq_div]
      positivity
  · split at h
    · rw [← Option.some.inj h, Rat.mkRat_eq_div]
      positivity
    · simp at h
  · simp at h

/-- `toFloatRE` requires a leading digit: it cannot match at a digitless
position. -/
theorem matchK_toFloatRE_none (prev : Option Char) (cs : List Char)
    (cap : MRes) (k : MK) (h : ∀ c ∈ cs, isDig c = false) :
    matchK toFloatRE prev cs cap k = none := by
  cases cs with
  | nil => simp [toFloatRE, plusCls, matchK]
  | cons c cs0 =>
      have hc := h c (List.mem_cons_self c cs0)
      simp [toFloatRE, plusCls, matchK, hc]

/-- No digits anywhere: the number search fails. -/
theorem searchFrom_toFloatRE_none :
    ∀ (cs : List Char) (prev : Option Char), (∀ c ∈ cs, isDig c = false) →
      searchFrom toFloatRE prev cs = none := by
  intro cs
  induction cs with
  | nil =>
      intro prev h
      rw [searchFrom_eq]
      rw [matchK_toFloatRE_none prev [] none topK h]
  | cons c rest ih =>
      intro prev h
      rw [searchFrom_eq]
      rw [matchK_toFloatRE_none prev (c :: rest) none topK h]
      exact ih (some c) (fun d hd => h d (List.mem_cons_of_mem c hd))

/-- C10: `_to_float` is total — `None` and numbers coerce directly, a string
yields the first unsigned decimal after comma removal (hence never a
negative), a digitless string yields `None`, and `"-12.50"` coerces to the
positive 12.5. -/
theorem C10_to_float_total :
    (∀ (s0 : List Char) (q : ℚ), to_float (.str s0) = some q → 0 ≤ q)
    ∧ (∀ s0 : List Char, (∀ c ∈ s0, isDig c = false) →
        to_float (.str s0) = none)
    ∧ to_float (.str (S "-12.50")) = some (25 / 2)
    ∧ (0 : ℚ) < 25 / 2
    ∧ to_float .null = none
    ∧ (∀ z : ℤ, to_float (.int z) = some z)
    ∧ (∀ q : ℚ, to_float (.float q) = some q) := by
  have e : (25 : ℚ) / 2 = mkRat 1250 100 := by
    rw [Rat.mkRat_eq_div]; norm_num
  refine ⟨?_, ?_, by rw [e]; decide, by norm_num, rfl,
    fun z => rfl, fun q => rfl⟩
  · intro s0 q h
    simp only [to_float] at h
    split at h
    · exact pyFloat_nonneg h
    · simp at h
  · intro s0 h
    have h2 : ∀ c ∈ stripCommas s0, isDig c = false := by
      intro c hc
      exact h c (List.mem_of_mem_filter hc)
    simp only [to_float, reSearch]
    rw [searchFrom_toFloatRE_none (stripCommas s0) none h2]

/-- Witness for C10's universal parts at concrete strings. -/
theorem C10_to_float_total_witness :
    to_float (.str (S "7 bottles")) = some 7
    ∧ (0 : ℚ) ≤ 7
    ∧ to_float (.str (S "no digits!")) = none :=
  ⟨by with_unfolding_all decide,
   C10_to_float_total.1 (S "7 bottles") 7 (by with_unfolding_all decide),
   C10_to_float_total.2.1 (S "no digits!") (by decide)⟩

/-! ## Engine metatheory: constructing matches at a known occurrence -/

/-- A hit of the left alternative is a hit of the alternation. -/
theorem matchK_alt_left {a b : RE} {prev : Option Char} {cs : List Char}
    {cap : MRes} {k : MK} (h : (matchK a prev cs cap k).isSome) :
    (matchK (.alt a b) prev cs cap k).isSome := by
  unfold matchK
  cases hx : matchK a prev cs cap k with
  | some r => simp
  | none => rw [hx] at h; simp at h

/-- Composition of `seq` unfolds to continuation passing. -/
theorem matchK_seq_eq (a b : RE) (prev : Option Char) (cs : List Char)
    (cap : MRes) (k : MK) :
    matchK (.seq a b) prev cs cap k
      = matchK a prev cs cap (fun p0 cs0 cap0 => matchK b p0 cs0 cap0 k) := rfl

/-- `grp` unfolds to capture-recording continuation passing. -/
theorem matchK_grp_eq (a : RE) (prev : Option Char) (cs : List Char)
    (cap : MRes) (k : MK) :
    matchK (.grp a) prev cs cap k
      = matchK a prev cs cap
          (fun p0 cs0 _ =>
            k p0 cs0 (some (cs.take (cs.length - cs0.length)))) := rfl

/-- `lit` unfolds to `litK`. -/
theorem matchK_lit_eq (s : List Char) (prev : Option Char) (cs : List Char)
    (cap : MRes) (k : MK) :
    matchK (.lit s) prev cs cap k = litK s prev cs cap k := rfl

/-- `\b` passes at a word/non-word transition. -/
theorem matchK_wb_pass {prev : Option Char} {cs : List Char}
    (h : wordAt prev ≠ wordAt cs.head?) (cap : MRes) (k : MK) :
    matchK .wb prev cs cap k = k prev cs cap := by
  unfold matchK
  rw [if_pos h]

/-- A class consumes one admissible character. -/
theorem matchK_cls_pass {p : Char → Bool} {c : Char} (h : p c = true)
    (prev : Option Char) (cs0 : List Char) (cap : MRes) (k : MK) :
    matchK (.cls p) prev (c :: cs0) cap k = k (some c) cs0 cap := by
  simp [matchK, h]

/-- `prevAfter` over a cons. -/
theorem prevAfter_cons (p0 : Option Char) (c : Char) (a0 : List Char) :
    prevAfter p0 (c :: a0) = prevAfter (some c) a0 := by
  cases a0 with
  | nil => rfl
  | cons d a1 =>
      unfold prevAfter
      rw [List.getLast?_cons_cons]
      rw [List.getLast?_eq_getLast_of_ne_nil (l := d :: a1) (by simp)]

/-- `prevAfter` from the initial position is the last character scanned. -/
theorem prevAfter_none (a : List Char) : prevAfter none a = a.getLast? := by
  unfold prevAfter
  cases a.getLast? <;> rfl

/-- A literal matches its own text (case-insensitive matching is reflexive). -/
theorem litK_self (s : List Char) :
    ∀ (prev : Option Char) (cs : List Char) (cap : MRes) (k : MK),
      litK s prev (s ++ cs) cap k = k (prevAfter prev s) cs cap := by
  induction s with
  | nil => intro prev cs cap k; rfl
  | cons a s0 ih =>
      intro prev cs cap k
      show litK (a :: s0) prev (a :: (s0 ++ cs)) cap k = _
      rw [show litK (a :: s0) prev (a :: (s0 ++ cs)) cap k
          = litK s0 (some a) (s0 ++ cs) cap k by simp [litK]]
      rw [ih, prevAfter_cons]

/-- A class star whose head fails consumes nothing. -/
theorem matchK_star_nil (p : Char → Bool) (cs : List Char)
    (h : cs.takeWhile p = []) (g : Bool) (prev : Option Char) (cap : MRes)
    (k : MK) :
    matchK (.starCls p g) prev cs cap k = k prev cs cap := by
  unfold matchK
  rw [h]
  have e : ∀ g0 : Bool, repLens 0 0 0 g0 = [0] := by
    intro g0; cases g0 <;> rfl
  simp only [List.length_nil, e, List.findSome?, List.take_zero,
    List.drop_zero]
  rw [show prevAfter prev [] = prev from rfl]
  cases hk : k prev cs cap <;> simp [hk, List.findSome?]

/-- A match attempt succeeding at offset `|a|` makes the search succeed. -/
theorem searchFrom_of_matchAt (r : RE) :
    ∀ (a rest : List Char) (p0 : Option Char),
      (matchK r (prevAfter p0 a) rest none topK).isSome →
      (searchFrom r p0 (a ++ rest)).isSome := by
  intro a
  induction a with
  | nil =>
      intro rest p0 h
      rw [show prevAfter p0 [] = p0 from rfl] at h
      rw [searchFrom_eq]
      cases hx : matchK r p0 ([] ++ rest) none topK with
      | some r0 => simp
      | none =>
          rw [List.nil_append] at hx
          rw [hx] at h
          simp at h
  | cons c a0 ih =>
      intro rest p0 h
      rw [searchFrom_eq]
      cases hx : matchK r p0 ((c :: a0) ++ rest) none topK with
      | some r0 => simp
      | none =>
          show (searchFrom r (some c) (a0 ++ rest)).isSome = true
          apply ih
          rw [← prevAfter_cons p0 c a0]
          exact h

/-- The `375ml` pattern matches at any word-bounded literal occurrence. -/
theorem matchK_p375_at {prev : Option Char} {b : List Char}
    (hp : wordAt prev = false) (hb : wordAt b.head? = false) :
    (matchK p375RE prev ('3' :: '7' :: '5' :: 'm' :: 'l' :: b) none
      topK).isSome := by
  have hwb1 : wordAt prev ≠ wordAt (('3':: '7':: '5':: 'm':: 'l'::b).head?) := by
    rw [hp, show (('3':: '7':: '5':: 'm':: 'l'::b).head?) = some '3' from rfl]
    decide
  have hwb2 : wordAt (some 'l') ≠ wordAt b.head? := by
    rw [hb]; decide
  apply matchK_alt_left
  show (matchK (.seq .wb (.seq (.grp (.lit ['3','7','5']))
      (.seq (.starCls isPySpace true) (.seq (.lit ['m','l']) .wb)))) prev
      ('3':: '7':: '5':: 'm':: 'l'::b) none topK).isSome = true
  rw [matchK_seq_eq, matchK_wb_pass hwb1]
  try dsimp only
  rw [matchK_seq_eq, matchK_grp_eq, matchK_lit_eq]
  have e1 : ('3':: '7':: '5':: 'm':: 'l'::b : List Char)
      = ['3','7','5'] ++ ('m':: 'l'::b) := rfl
  rw [e1, litK_self]
  try dsimp only
  have e2 : prevAfter prev ['3','7','5'] = some '5' := rfl
  rw [e2, matchK_seq_eq,
    matchK_star_nil isPySpace ('m':: 'l'::b) rfl]
  try dsimp only
  rw [matchK_seq_eq, matchK_lit_eq]
  have e3 : ('m':: 'l'::b : List Char) = ['m','l'] ++ b := rfl
  rw [e3, litK_self]
  try dsimp only
  have e4 : prevAfter (some '5') ['m','l'] = some 'l' := rfl
  rw [e4, matchK_wb_pass hwb2]
  rfl

/-- The `double magnum` pattern matches at any word-bounded occurrence. -/
theorem matchK_dm_at {prev : Option Char} {b : List Char}
    (hp : wordAt prev = false) (hb : wordAt b.head? = false) :
    (matchK dmRE prev
      ('d':: 'o':: 'u':: 'b':: 'l':: 'e':: ' ':: 'm':: 'a':: 'g':: 'n':: 'u':: 'm'::b)
      none topK).isSome := by
  have hwb1 : wordAt prev ≠ wordAt
      (('d':: 'o':: 'u':: 'b':: 'l':: 'e':: ' ':: 'm':: 'a':: 'g':: 'n':: 'u':: 'm'::b).head?) := by
    rw [hp, show
      (('d':: 'o':: 'u':: 'b':: 'l':: 'e':: ' ':: 'm':: 'a':: 'g':: 'n':: 'u':: 'm'::b).head?)
      = some 'd' from rfl]
    decide
  have hwb2 : wordAt (some 'm') ≠ wordAt b.head? := by
    rw [hb]; decide
  show (matchK (.seq .wb (.seq (.lit ['d','o','u','b','l','e'])
      (.seq (.seq (.cls isPySpace) (.starCls isPySpace true))
        (.seq (.lit ['m','a','g','n','u','m']) .wb)))) prev
      ('d':: 'o':: 'u':: 'b':: 'l':: 'e':: ' ':: 'm':: 'a':: 'g':: 'n':: 'u':: 'm'::b)
      none topK).isSome = true
  rw [matchK_seq_eq, matchK_wb_pass hwb1]
  try dsimp only
  rw [matchK_seq_eq, matchK_lit_eq]
  have e1 : ('d':: 'o':: 'u':: 'b':: 'l':: 'e':: ' ':: 'm':: 'a':: 'g':: 'n':: 'u':: 'm'::b
      : List Char)
      = ['d','o','u','b','l','e'] ++ (' ':: 'm':: 'a':: 'g':: 'n':: 'u':: 'm'::b) := rfl
  rw [e1, litK_self]
  try dsimp only
  have e2 : prevAfter prev ['d','o','u','b','l','e'] = some 'e' := rfl
  rw [e2, matchK_seq_eq, matchK_seq_eq, matchK_cls_pass rfl]
  try dsimp only
  rw [matchK_star_nil isPySpace ('m':: 'a':: 'g':: 'n':: 'u':: 'm'::b) rfl]
  try dsimp only
  rw [matchK_seq_eq, matchK_lit_eq]
  have e3 : ('m':: 'a':: 'g':: 'n':: 'u':: 'm'::b : List Char)
      = ['m','a','g','n','u','m'] ++ b := rfl
  rw [e3, litK_self]
  try dsimp only
  have e4 : prevAfter (some ' ') ['m','a','g','n','u','m'] = some 'm' := rfl
  rw [e4, matchK_wb_pass hwb2]
  rfl

/-- `findSome?` skips an element on which the function fails. -/
theorem findSome?_cons_none {α β : Type} {f : α → Option β} {x : α}
    (l : List α) (h : f x = none) :
    List.findSome? f (x :: l) = List.findSome? f l := by
  simp [List.findSome?, h]

/-- `findSome?` stops at the first element on which the function succeeds. -/
theorem findSome?_cons_some {α β : Type} {f : α → Option β} {x : α} {b : β}
    (l : List α) (h : f x = some b) :
    List.findSome? f (x :: l) = some b := by
  unfold List.findSome?
  rw [h]

/-- `findSome?` over an append tries the left part first. -/
theorem findSome?_append {α β : Type} (f : α → Option β) (l1 l2 : List α) :
    List.findSome? f (l1 ++ l2) =
      match List.findSome? f l1 with
      | some b => some b
      | none => List.findSome? f l2 := by
  induction l1 with
  | nil => simp [List.findSome?]
  | cons a l ih =>
      simp only [List.cons_append, List.findSome?]
      cases f a <;> simp [ih]

/-- A text whose lowering decomposes around a character is nonempty. -/
theorem isEmpty_false_of_map_eq_append {t a : List Char} {c : Char}
    {b : List Char} (ht : t.map pyLowerChar = a ++ c :: b) :
    t.isEmpty = false := by
  cases t with
  | nil =>
      exfalso
      have hl := congrArg List.length ht
      simp only [List.map_nil, List.length_nil, List.length_append,
        List.length_cons] at hl
      omega
  | cons d l => rfl

set_option maxRecDepth 200000 in
/-- C6 as amended: `normalize_bottle_size` evaluates `_SIZE_PATTERNS`
first-match-wins at the regex level — every pattern is word-bounded, so
"containing `375ml`" must mean a word-bounded occurrence, not a substring.
(a) A text whose lowering has a word-bounded `375ml` and no hit of the
earlier `187ml` pattern normalizes to 375, whatever follows (such as a later
`750ml`). (b) A text whose lowering has a word-bounded `double magnum` and
no hit of the seven patterns preceding it normalizes to 3000. (c) Any text
whose lowering has a word-bounded `double magnum` never normalizes to 1500:
some pattern at or before `double magnum` fires, and none of those carries
1500 (the longer phrase is checked before plain `magnum`). (d) Concretely,
"375ml 750ml" gives 375 and "double magnum" gives 3000. -/
theorem C6_bottle_size_precedence :
    (∀ t a b : List Char,
      t.map pyLowerChar = a ++ ('3' :: '7' :: '5' :: 'm' :: 'l' :: b) →
      wordAt a.getLast? = false → wordAt b.head? = false →
      reSearch p187RE (t.map pyLowerChar) = none →
      normalize_bottle_size (some t) = 375)
  ∧ (∀ t a b : List Char,
      t.map pyLowerChar
        = a ++ ('d':: 'o':: 'u':: 'b':: 'l':: 'e':: ' ':: 'm':: 'a':: 'g':: 'n':: 'u':: 'm'::b) →
      wordAt a.getLast? = false → wordAt b.head? = false →
      (∀ r ∈ [p187RE, p375RE, p500RE, p620RE, p720RE, p750RE, p1000RE],
        reSearch r (t.map pyLowerChar) = none) →
      normalize_bottle_size (some t) = 3000)
  ∧ (∀ t a b : List Char,
      t.map pyLowerChar
        = a ++ ('d':: 'o':: 'u':: 'b':: 'l':: 'e':: ' ':: 'm':: 'a':: 'g':: 'n':: 'u':: 'm'::b) →
      wordAt a.getLast? = false → wordAt b.head? = false →
      normalize_bottle_size (some t) ≠ 1500)
  ∧ normalize_bottle_size (some (S "375ml 750ml")) = 375
  ∧ normalize_bottle_size (some (S "double magnum")) = 3000 := by
  refine ⟨?_, ?_, ?_, by decide, by decide⟩
  · intro t a b ht hwa hwb h187
    have hne : t.isEmpty = false := isEmpty_false_of_map_eq_append ht
    have h375 : (reSearch p375RE (t.map pyLowerChar)).isSome = true := by
      rw [ht]
      unfold reSearch
      apply searchFrom_of_matchAt
      rw [prevAfter_none]
      exact matchK_p375_at hwa hwb
    have h1 : sizeHit (t.map pyLowerChar) (p187RE, 187) = none := by
      simp [sizeHit, h187]
    have h2 : sizeHit (t.map pyLowerChar) (p375RE, 375) = some 375 := by
      simp [sizeHit, h375]
    have hsp : sizePatterns = (p187RE, 187) :: (p375RE, 375) ::
        [(p500RE, 500), (p620RE, 620), (p720RE, 720), (p750RE, 750),
         (p1000RE, 1000), (dm3lRE, 3000), (dmRE, 3000), (p3000RE, 3000),
         (p6000RE, 6000), (pMagRE, 1500)] := rfl
    have hfs : sizePatterns.findSome? (sizeHit (t.map pyLowerChar))
        = some 375 := by
      rw [hsp, findSome?_cons_none _ h1, findSome?_cons_some _ h2]
    simp [normalize_bottle_size, hne, hfs]
  · intro t a b ht hwa hwb hnone
    have hne : t.isEmpty = false := isEmpty_false_of_map_eq_append ht
    have hdm : (reSearch dmRE (t.map pyLowerChar)).isSome = true := by
      rw [ht]
      unfold reSearch
      apply searchFrom_of_matchAt
      rw [prevAfter_none]
      exact matchK_dm_at hwa hwb
    have s1 : sizeHit (t.map pyLowerChar) (p187RE, 187) = none := by
      simp [sizeHit, hnone p187RE (by simp)]
    have s2 : sizeHit (t.map pyLowerChar) (p375RE, 375) = none := by
      simp [sizeHit, hnone p375RE (by simp)]
    have s3 : sizeHit (t.map pyLowerChar) (p500RE, 500) = none := by
      simp [sizeHit, hnone p500RE (by simp)]
    have s4 : sizeHit (t.map pyLowerChar) (p620RE, 620) = none := by
      simp [sizeHit, hnone p620RE (by simp)]
    have s5 : sizeHit (t.map pyLowerChar) (p720RE, 720) = none := by
      simp [sizeHit, hnone p720RE (by simp)]
    have s6 : sizeHit (t.map pyLowerChar) (p750RE, 750) = none := by
      simp [sizeHit, hnone p750RE (by simp)]
    have s7 : sizeHit (t.map pyLowerChar) (p1000RE, 1000) = none := by
      simp [sizeHit, hnone p1000RE (by simp)]
    have s9 : sizeHit (t.map pyLowerChar) (dmRE, 3000) = some 3000 := by
      simp [sizeHit, hdm]
    have hsp : sizePatterns = (p187RE, 187) :: (p375RE, 375) ::
        (p500RE, 500) :: (p620RE, 620) :: (p720RE, 720) :: (p750RE, 750) ::
        (p1000RE, 1000) :: (dm3lRE, 3000) :: (dmRE, 3000) ::
        [(p3000RE, 3000), (p6000RE, 6000), (pMagRE, 1500)] := rfl
    cases hx : reSearch dm3lRE (t.map pyLowerChar) with
    | none =>
        have s8 : sizeHit (t.map pyLowerChar) (dm3lRE, 3000) = none := by
          simp [sizeHit, hx]
        have hfs : sizePatterns.findSome? (sizeHit (t.map pyLowerChar))
            = some 3000 := by
          rw [hsp, findSome?_cons_none _ s1, findSome?_cons_none _ s2,
            findSome?_cons_none _ s3, findSome?_cons_none _ s4,
            findSome?_cons_none _ s5, findSome?_cons_none _ s6,
            findSome?_cons_none _ s7, findSome?_cons_none _ s8,
            findSome?_cons_some _ s9]
        simp [normalize_bottle_size, hne, hfs]
    | some g =>
        have s8 : sizeHit (t.map pyLowerChar) (dm3lRE, 3000) = some 3000 := by
          simp [sizeHit, hx]
        have hfs : sizePatterns.findSome? (sizeHit (t.map pyLowerChar))
            = some 3000 := by
          rw [hsp, findSome?_cons_none _ s1, findSome?_cons_none _ s2,
            findSome?_cons_none _ s3, findSome?_cons_none _ s4,
            findSome?_cons_none _ s5, findSome?_cons_none _ s6,
            findSome?_cons_none _ s7, findSome?_cons_some _ s8]
        simp [normalize_bottle_size, hne, hfs]
  · intro t a b ht hwa hwb
    have hne : t.isEmpty = false := isEmpty_false_of_map_eq_append ht
    have hdm : (reSearch dmRE (t.map pyLowerChar)).isSome = true := by
      rw [ht]
      unfold reSearch
      apply searchFrom_of_matchAt
      rw [prevAfter_none]
      exact matchK_dm_at hwa hwb
    have hex : (List.findSome? (sizeHit (t.map pyLowerChar))
        [(p187RE, 187), (p375RE, 375), (p500RE, 500), (p620RE, 620),
         (p720RE, 720), (p750RE, 750), (p1000RE, 1000), (dm3lRE, 3000),
         (dmRE, 3000)]).isSome := by
      rw [findSome?_isSome_iff]
      refine ⟨(dmRE, 3000), by simp, ?_⟩
      simp [sizeHit, hdm]
    obtain ⟨v, hv⟩ := Option.isSome_iff_exists.mp hex
    obtain ⟨x, hxm, hxe⟩ := findSome?_mem_of_eq_some hv
    have hvx : v = x.2 := by
      unfold sizeHit at hxe
      split at hxe
      · exact (Option.some.inj hxe).symm
      · exact absurd hxe (by simp)
    have hx2 : x.2 ≠ 1500 := by
      simp only [List.mem_cons, List.not_mem_nil, or_false] at hxm
      rcases hxm with h|h|h|h|h|h|h|h|h <;> rw [h] <;> decide
    have hsp : sizePatterns =
        [(p187RE, 187), (p375RE, 375), (p500RE, 500), (p620RE, 620),
         (p720RE, 720), (p750RE, 750), (p1000RE, 1000), (dm3lRE, 3000),
         (dmRE, 3000)]
        ++ [(p3000RE, 3000), (p6000RE, 6000), (pMagRE, 1500)] := rfl
    have hfs : sizePatterns.findSome? (sizeHit (t.map pyLowerChar))
        = some v := by
      rw [hsp, findSome?_append, hv]
    have hkey : normalize_bottle_size (some t) = v := by
      simp [normalize_bottle_size, hne, hfs]
    rw [hkey, hvx]
    exact hx2

set_option maxRecDepth 200000 in
/-- Witness for C6's universal part (a) at the text "375ml 750ml". -/
theorem C6_bottle_size_precedence_witness :
    (S "375ml 750ml").map pyLowerChar
        = [] ++ ('3' :: '7' :: '5' :: 'm' :: 'l' :: S " 750ml")
      ∧ wordAt (List.getLast? ([] : List Char)) = false
      ∧ wordAt (S " 750ml").head? = false
      ∧ reSearch p187RE ((S "375ml 750ml").map pyLowerChar) = none
      ∧ normalize_bottle_size (some (S "375ml 750ml")) = 375 :=
  ⟨by decide, by decide, by decide, by decide,
   C6_bottle_size_precedence.1 (S "375ml 750ml") [] (S " 750ml")
     (by decide) (by decide) (by decide) (by decide)⟩

set_option maxRecDepth 200000 in
/-- C6 counterexample to the claim as written: "1375ml 750ml" contains the
literal "375ml" and, later, "750ml", yet it normalizes to 750, not 375 —
the `375ml` pattern is word-bounded and "1375ml" has a word character
before its "375". -/
theorem C6_bottle_size_counterexample :
    S "1375ml 750ml" = S "1" ++ S "375ml" ++ S " " ++ S "750ml"
      ∧ normalize_bottle_size (some (S "1375ml 750ml")) = 750
      ∧ (750 : ℕ) ≠ 375 :=
  ⟨rfl, by decide, by decide⟩

set_option maxRecDepth 200000 in
/-- C8: `extract_deal_from_json` returns a candidate only when the title and
URL chains are truthy and the price chain yields the candidate's price, which
pydantic validation forces positive; if the price chain fails or the title or
URL chain is falsy it returns `None`, never a partially-filled record; and
the Cabernet Sauvignon Reserve example yields a candidate with that title,
price 29.99, vintage "2020" and bottle_size_ml 750. -/
theorem C8_json_required_fields :
    (∀ (o : List (List Char × JValue)) (d : Deal),
      extract_deal_from_json o = .ok (some d) →
      truthyJ (titleOfJ o) = true ∧ truthyJ (urlOfJ o) = true
        ∧ priceOfJ o = some d.price ∧ 0 < d.price)
  ∧ (∀ o : List (List Char × JValue),
      priceOfJ o = none ∨ truthyJ (titleOfJ o) = false
        ∨ truthyJ (urlOfJ o) = false →
      extract_deal_from_json o = .ok none)
  ∧ extract_deal_from_json
      [(S "name", .str (S "Cabernet Sauvignon Reserve")),
       (S "price", .float ((2999 : ℚ)/100)),
       (S "url", .str (S "https://x/123")),
       (S "vintage", .str (S "2020")),
       (S "region", .str (S "Napa Valley"))]
      = .ok (some ⟨S "Cabernet Sauvignon Reserve", (2999 : ℚ)/100, none,
          some (S "2020"), some (S "Napa Valley"), S "https://x/123", 750⟩) := by
  refine ⟨?_, ?_, ?_⟩
  · intro o d h
    simp only [extract_deal_from_json] at h
    split at h
    · simp at h
    · rename_i p hp
      split at h
      · simp at h
      · rename_i hc
        split at h
        · simp at h
        · rename_i sizeText hst
          split at h
          · rename_i vv rr hvv hrr
            injection h with hm
            have ht : truthyJ (titleOfJ o) = true := by
              cases hb : truthyJ (titleOfJ o) with
              | true => rfl
              | false => exact absurd (by simp [hb]) hc
            have hu : truthyJ (urlOfJ o) = true := by
              cases hb : truthyJ (urlOfJ o) with
              | true => rfl
              | false => exact absurd (by simp [hb]) hc
            unfold mkDeal at hm
            split at hm
            · rename_i h0
              split at hm
              · injection hm with hd
                subst hd
                exact ⟨ht, hu, hp, h0⟩
              · simp at hm
            · simp at hm
          · simp at h
  · intro o hcase
    rcases hcase with h | h | h
    · simp [extract_deal_from_json, h]
    · cases hp : priceOfJ o with
      | none => simp [extract_deal_from_json, hp]
      | some p => simp [extract_deal_from_json, hp, h]
    · cases hp : priceOfJ o with
      | none => simp [extract_deal_from_json, hp]
      | some p => simp [extract_deal_from_json, hp, h]
  · have e : (2999 : ℚ)/100 = mkRat 2999 100 := by
      rw [Rat.mkRat_eq_div]; norm_num
    rw [e]
    decide

/-- Witness for C8's universal part: the empty payload has no price chain,
so extraction returns `None`. -/
theorem C8_json_required_fields_witness :
    (priceOfJ [] = none ∨ truthyJ (titleOfJ []) = false
        ∨ truthyJ (urlOfJ []) = false)
      ∧ extract_deal_from_json [] = .ok none :=
  ⟨Or.inl (by decide), C8_json_required_fields.2.1 [] (Or.inl (by decide))⟩

/-- ws chars are untouched by NFD. -/
theorem nfdChar_of_space {c : Char} (h : isPySpace c = true) :
    nfdChar c = [c] := by
  rw [nfdChar.eq_def]
  split
  all_goals first
    | rfl
    | exact absurd h (by decide)

theorem isMark_of_space {c : Char} (h : isPySpace c = true) :
    isMark c = false := by
  cases hm : isMark c with
  | false => rfl
  | true =>
      exfalso
      simp only [isMark, Bool.or_eq_true, decide_eq_true_eq] at hm
      rcases hm with (((h1 | h1) | h1) | h1) | h1 <;> subst h1 <;>
        exact absurd h (by decide)

theorem charPipe_append (a b : List Char) :
    charPipe (a ++ b) = charPipe a ++ charPipe b := by
  simp [charPipe, List.flatMap_append, List.filter_append]

theorem charPipe_ws (a : List Char) (h : ∀ c ∈ a, isPySpace c = true) :
    charPipe a = a := by
  induction a with
  | nil => rfl
  | cons c a0 ih =>
      have hc := h c (by simp)
      have ha0 : ∀ d ∈ a0, isPySpace d = true := fun d hd => h d (by simp [hd])
      have e1 : charPipe (c :: a0) = c :: charPipe a0 := by
        simp [charPipe, List.flatMap_cons, nfdChar_of_space hc,
          isMark_of_space hc, hc]
      rw [e1, ih ha0]

theorem dropWhile_collapse_flag (z : List Char) :
    (collapseA true z).dropWhile isPySpace
      = (collapseA false z).dropWhile isPySpace := by
  cases z with
  | nil => rfl
  | cons c r =>
      cases hc : isPySpace c with
      | true =>
          have e1 : collapseA true (c :: r) = collapseA true r := by
            simp [collapseA, hc]
          have e2 : collapseA false (c :: r) = ' ' :: collapseA true r := by
            simp [collapseA, hc]
          have hsp : isPySpace ' ' = true := rfl
          rw [e1, e2, List.dropWhile_cons, hsp]
          simp
      | false =>
          have e1 : collapseA true (c :: r) = c :: collapseA false r := by
            simp [collapseA, hc]
          have e2 : collapseA false (c :: r) = c :: collapseA false r := by
            simp [collapseA, hc]
          rw [e1, e2]

theorem collapse_true_ws (a : List Char) (h : ∀ c ∈ a, isPySpace c = true) :
    ∀ z, collapseA true (a ++ z) = collapseA true z := by
  induction a with
  | nil => intro z; rfl
  | cons c a0 ih =>
      intro z
      have hc := h c (by simp)
      have ha0 : ∀ d ∈ a0, isPySpace d = true := fun d hd => h d (by simp [hd])
      have e : collapseA true ((c :: a0) ++ z) = collapseA true (a0 ++ z) := by
        simp [collapseA, hc]
      rw [e]
      exact ih ha0 z

theorem dropWhile_collapse_ws_lead (a z : List Char)
    (h : ∀ c ∈ a, isPySpace c = true) :
    (collapseA false (a ++ z)).dropWhile isPySpace
      = (collapseA false z).dropWhile isPySpace := by
  cases a with
  | nil => rfl
  | cons c a0 =>
      have hc := h c (by simp)
      have ha0 : ∀ d ∈ a0, isPySpace d = true := fun d hd => h d (by simp [hd])
      have e : collapseA false ((c :: a0) ++ z)
          = ' ' :: collapseA true (a0 ++ z) := by
        simp [collapseA, hc]
      have hsp : isPySpace ' ' = true := rfl
      rw [e, collapse_true_ws a0 ha0 z, List.dropWhile_cons, hsp]
      simp [dropWhile_collapse_flag]

theorem collapse_ws_all (w : List Char) (h : ∀ c ∈ w, isPySpace c = true) :
    ∀ f, ∀ c ∈ collapseA f w, isPySpace c = true := by
  induction w with
  | nil => intro f c hc; simp [collapseA] at hc
  | cons d w0 ih =>
      intro f c hc
      have hd := h d (by simp)
      have hw0 : ∀ e ∈ w0, isPySpace e = true := fun e he => h e (by simp [he])
      cases f with
      | true =>
          have e1 : collapseA true (d :: w0) = collapseA true w0 := by
            simp [collapseA, hd]
          rw [e1] at hc
          exact ih hw0 true c hc
      | false =>
          have e1 : collapseA false (d :: w0) = ' ' :: collapseA true w0 := by
            simp [collapseA, hd]
          rw [e1] at hc
          rcases List.mem_cons.mp hc with hcc | hcc
          · subst hcc; rfl
          · exact ih hw0 true c hcc

theorem dropTrail_nil_of_ws (l : List Char) (h : ∀ c ∈ l, isPySpace c = true) :
    dropTrail l = [] := by
  induction l with
  | nil => rfl
  | cons c r ih =>
      have hc := h c (by simp)
      have hr : ∀ d ∈ r, isPySpace d = true := fun d hd => h d (by simp [hd])
      simp [dropTrail, hc, ih hr]

theorem dropTrail_collapse_ws_suffix (w : List Char)
    (hw : ∀ c ∈ w, isPySpace c = true) :
    ∀ (y : List Char) (f : Bool),
      dropTrail (collapseA f (y ++ w)) = dropTrail (collapseA f y) := by
  intro y
  induction y with
  | nil =>
      intro f
      have h1 : dropTrail (collapseA f w) = [] :=
        dropTrail_nil_of_ws _ (collapse_ws_all w hw f)
      simp [collapseA, h1, dropTrail]
  | cons c y0 ih =>
      intro f
      cases hc : isPySpace c with
      | true =>
          cases f with
          | true =>
              have e1 : collapseA true ((c :: y0) ++ w)
                  = collapseA true (y0 ++ w) := by simp [collapseA, hc]
              have e2 : collapseA true (c :: y0) = collapseA true y0 := by
                simp [collapseA, hc]
              rw [e1, e2, ih true]
          | false =>
              have e1 : collapseA false ((c :: y0) ++ w)
                  = ' ' :: collapseA true (y0 ++ w) := by simp [collapseA, hc]
              have e2 : collapseA false (c :: y0)
                  = ' ' :: collapseA true y0 := by simp [collapseA, hc]
              rw [e1, e2]
              simp only [dropTrail, ih true]
      | false =>
          have e1 : collapseA f ((c :: y0) ++ w)
              = c :: collapseA false (y0 ++ w) := by
            cases f <;> simp [collapseA, hc]
          have e2 : collapseA f (c :: y0) = c :: collapseA false y0 := by
            cases f <;> simp [collapseA, hc]
          rw [e1, e2]
          simp only [dropTrail, ih false]

theorem dropTrail_dropWhile_comm (l : List Char) :
    dropTrail (l.dropWhile isPySpace) = (dropTrail l).dropWhile isPySpace := by
  induction l with
  | nil => rfl
  | cons c r ih =>
      cases hc : isPySpace c with
      | true =>
          rw [List.dropWhile_cons, hc, if_pos rfl, ih]
          cases hdt : dropTrail r with
          | nil => simp [dropTrail, hc, hdt]
          | cons d t =>
              have e : dropTrail (c :: r) = c :: dropTrail r := by
                simp [dropTrail, hc, hdt]
              conv_rhs => rw [e, hdt, List.dropWhile_cons]
              simp [hc]
      | false =>
          rw [List.dropWhile_cons, hc]
          have e : dropTrail (c :: r) = c :: dropTrail r := by
            simp [dropTrail, hc]
          rw [if_neg (by simp), e, List.dropWhile_cons, hc, if_neg (by simp)]

theorem dropTrail_decomp (m : List Char) :
    ∃ w, m = dropTrail m ++ w ∧ ∀ c ∈ w, isPySpace c = true := by
  induction m with
  | nil => exact ⟨[], rfl, by simp⟩
  | cons c r ih =>
      obtain ⟨w0, hw0, hws⟩ := ih
      cases hc : isPySpace c with
      | false =>
          refine ⟨w0, ?_, hws⟩
          have e : dropTrail (c :: r) = c :: dropTrail r := by
            simp [dropTrail, hc]
          rw [e, List.cons_append, ← hw0]
      | true =>
          cases hdt : dropTrail r with
          | nil =>
              refine ⟨c :: w0, ?_, ?_⟩
              · have e : dropTrail (c :: r) = [] := by
                  simp [dropTrail, hc, hdt]
                rw [e, List.nil_append]
                rw [hdt, List.nil_append] at hw0
                rw [← hw0]
              · intro d hd
                rcases List.mem_cons.mp hd with hdd | hdd
                · subst hdd; exact hc
                · exact hws d hdd
          | cons d t =>
              refine ⟨w0, ?_, hws⟩
              have e : dropTrail (c :: r) = c :: dropTrail r := by
                simp [dropTrail, hc, hdt]
              rw [e, List.cons_append, ← hw0]

theorem titleCanon_strip (x : List Char) :
    pyStripL (collapseA false (charPipe x))
      = pyStripL (collapseA false (charPipe (pyStripL x))) := by
  obtain ⟨w, hw, hws⟩ := dropTrail_decomp (x.dropWhile isPySpace)
  have hta : ∀ c ∈ x.takeWhile isPySpace, isPySpace c = true :=
    fun c hc => List.mem_takeWhile_imp hc
  have key : ∀ (a y wl : List Char), (∀ c ∈ a, isPySpace c = true) →
      (∀ c ∈ wl, isPySpace c = true) →
      pyStripL (collapseA false (charPipe (a ++ (y ++ wl))))
        = pyStripL (collapseA false (charPipe y)) := by
    intro a y wl ha hwl
    rw [charPipe_append, charPipe_append, charPipe_ws a ha, charPipe_ws wl hwl]
    unfold pyStripL
    rw [dropWhile_collapse_ws_lead _ _ ha]
    rw [dropTrail_dropWhile_comm, dropTrail_dropWhile_comm,
      dropTrail_collapse_ws_suffix wl hwl (charPipe y) false]
  have hx2 : x = x.takeWhile isPySpace
      ++ (dropTrail (x.dropWhile isPySpace) ++ w) := by
    rw [← hw]
    exact (List.takeWhile_append_dropWhile isPySpace x).symm
  have hres := key (x.takeWhile isPySpace)
    (dropTrail (x.dropWhile isPySpace)) w hta hws
  calc pyStripL (collapseA false (charPipe x))
      = pyStripL (collapseA false (charPipe (x.takeWhile isPySpace
          ++ (dropTrail (x.dropWhile isPySpace) ++ w)))) := by rw [← hx2]
    _ = pyStripL (collapseA false
          (charPipe (dropTrail (x.dropWhile isPySpace)))) := hres
    _ = pyStripL (collapseA false (charPipe (pyStripL x))) := rfl

/-- Digit characters of values below ten are decimal digits. -/
theorem isDig_digitChar {k : ℕ} (h : k < 10) :
    isDig (Nat.digitChar k) = true := by
  interval_cases k <;> decide

set_option maxRecDepth 200000 in
/-- C4 as amended: `deal_key` is pure, total and deterministic, renders an
absent vintage as the literal `unknown` and the price with exactly two
decimals, and two titles with the same canonical form (lowercase, strip
accents, drop punctuation, collapse whitespace, trim) get the same key
provided the punctuation/whitespace differences do not leave leading or
trailing whitespace in the normalised titles — the code strips before
removing punctuation and never re-trims, so edge punctuation can leave a
residual leading/trailing space in the key.  The Château Margaux instance
holds as claimed. -/
theorem C4_deal_key_contract :
    (∀ (t : List Char) (v : Option (List Char)) (p : ℚ),
        deal_key t v p = deal_key t v p)
  ∧ (∀ (t : List Char) (p : ℚ),
        deal_key t none p
          = normTitle t ++ '|' :: S "unknown" ++ '|' :: fmt2 p)
  ∧ (∀ p : ℚ, ∃ a d1 d2, fmt2 p = a ++ '.' :: [d1, d2]
        ∧ isDig d1 = true ∧ isDig d2 = true)
  ∧ (∀ (t1 t2 : List Char) (v : Option (List Char)) (p : ℚ),
        specTitleCanon t1 = specTitleCanon t2 →
        pyStripL (normTitle t1) = normTitle t1 →
        pyStripL (normTitle t2) = normTitle t2 →
        deal_key t1 v p = deal_key t2 v p)
  ∧ deal_key (S " Château Margaux ") (some (S "2010")) 500
      = deal_key (S "chateau margaux") (some (S "2010")) 500 := by
  refine ⟨fun t v p => rfl, fun t p => rfl, ?_, ?_, ?_⟩
  · intro p
    refine ⟨(if p < 0 then ['-'] else [])
        ++ Nat.toDigits 10 (rndMulNat p 100 / 100),
      Nat.digitChar (rndMulNat p 100 % 100 / 10 % 10),
      Nat.digitChar (rndMulNat p 100 % 100 % 10), ?_, ?_, ?_⟩
    · simp [fmt2, pad2, List.append_assoc]
    · exact isDig_digitChar (Nat.mod_lt _ (by norm_num))
    · exact isDig_digitChar (Nat.mod_lt _ (by norm_num))
  · intro t1 t2 v p hc h1 h2
    have hb : ∀ t : List Char, specTitleCanon t = pyStripL (normTitle t) := by
      intro t
      unfold specTitleCanon normTitle
      exact titleCanon_strip (t.map pyLowerChar)
    have hn : normTitle t1 = normTitle t2 := by
      rw [← h1, ← h2, ← hb t1, ← hb t2, hc]
    unfold deal_key
    rw [hn]
  · decide

set_option maxRecDepth 200000 in
/-- Witness for C4's equivalence at the claim's own instance. -/
theorem C4_deal_key_contract_witness :
    specTitleCanon (S " Château  Margaux ") = specTitleCanon (S "chateau margaux")
      ∧ pyStripL (normTitle (S " Château  Margaux "))
          = normTitle (S " Château  Margaux ")
      ∧ pyStripL (normTitle (S "chateau margaux"))
          = normTitle (S "chateau margaux")
      ∧ deal_key (S " Château  Margaux ") (some (S "2010")) (mkRat 500 1)
          = deal_key (S "chateau margaux") (some (S "2010")) (mkRat 500 1) :=
  ⟨by decide, by decide, by decide,
   C4_deal_key_contract.2.2.2.1 (S " Château  Margaux ") (S "chateau margaux")
     (some (S "2010")) (mkRat 500 1) (by decide) (by decide) (by decide)⟩

set_option maxRecDepth 200000 in
/-- C4 counterexample to the claim as written: "- wine" and "wine" differ
only by punctuation (a leading dash and the space after it), and indeed
share the canonical title form, yet their keys differ: stripping happens
before punctuation removal, so the dash leaves a leading space the final
collapse never trims. -/
theorem C4_deal_key_counterexample :
    specTitleCanon (S "- wine") = specTitleCanon (S "wine")
      ∧ deal_key (S "- wine") none (mkRat 10 1)
          ≠ deal_key (S "wine") none (mkRat 10 1) :=
  ⟨by decide, by decide⟩
